import Mathlib

/-!
# util/perf/cpu_trace.h — scope tracing, flow tokens and sink selection

A shallow embedding of `src/util/perf/cpu_trace.h`.

The header is a set of macros and three `static inline` functions that forward
to external collaborators (`util_perfetto_*`, `atrace_*`, `util_gpuvis_*`,
`util_sysprof_*`, `os_time_get_nano`, `vsnprintf`).  The collaborators are not
part of the header; they are represented by

* `Env`   — what each collaborator answers (an oracle indexed by call count),
* `World` — how often each collaborator has been asked and the ordered record
            of every call a sink has received.

The preprocessor conditionals are represented by `Build`.
-/

namespace CpuTrace

/-! ## Data model -/

/-- A C string, as the list of its characters. -/
abbrev Name := List Char

/-- One variadic argument of a printf-style call. -/
inductive Arg where
  | int (i : Int)
  | str (s : Name)
  deriving DecidableEq, Repr

/-- The C type `struct mesa_trace_flow { uint64_t id; int64_t start_time; }`. -/
structure mesa_trace_flow where
  id : Nat
  start_time : Int
  deriving DecidableEq, Repr

/-- The value of `_MESA_TRACE_SCOPE_MAX_NAME_LENGTH`. -/
def _MESA_TRACE_SCOPE_MAX_NAME_LENGTH : Nat := 4096

/-- The C null pointer; scope handles (`void *`) are machine addresses. -/
def NULL : Nat := 0

/-- Which branch of the `#if defined(HAVE_PERFETTO) / #elif DETECT_OS_ANDROID &&
!defined(__cplusplus) / #else` chain defines the `_MESA_TRACE_*` macros. -/
inductive Primary where
  | perfetto
  | atrace
  | none
  deriving DecidableEq, Repr

/-- The compile-time configuration of the header.  `asserts` is true when
`assert` is active (`NDEBUG` undefined); the header marks `len` as `ASSERTED`
because the variable is used by nothing but the assertion. -/
structure Build where
  primary : Primary
  gpuvis : Bool
  sysprof : Bool
  asserts : Bool
  deriving DecidableEq, Repr

/-- A call received by one of the sinks. -/
inductive SinkCall where
  | util_perfetto_trace_begin (name : Name)
  | util_perfetto_trace_begin_flow (name : Name) (id : Nat)
  | util_perfetto_trace_end
  | util_perfetto_counter_set (name : Name) (value : Int)
  | util_perfetto_trace_full_begin (name : Name) (track_id flow_id clock : Nat) (timestamp : Int)
  | util_perfetto_trace_full_end (name : Name) (track_id clock : Nat) (timestamp : Int)
  | atrace_begin (name : Name)
  | atrace_end
  | util_gpuvis_begin (name : Name)
  | util_gpuvis_end
  | util_sysprof_begin (name : Name) (returned : Nat)
  | util_sysprof_end (scope : Nat)
  deriving DecidableEq, Repr

/-- The answers of the external collaborators.  Each is indexed by the number of
earlier calls to the same collaborator, so successive calls may answer
differently.  Ids, timestamps and pointers are only stored, passed on and
compared with 0 by the header, never computed with, so they are carried as
unbounded numbers. -/
structure Env where
  /-- The complete text the C library's printf family produces for a format and
  its arguments. -/
  printf_output : Name → List Arg → Name
  /-- The result of the n-th call of `util_perfetto_is_tracing_enabled`. -/
  util_perfetto_is_tracing_enabled : Nat → Bool
  /-- The result of the n-th call of `util_perfetto_next_id`. -/
  util_perfetto_next_id : Nat → Nat
  /-- The result of the n-th call of `os_time_get_nano`. -/
  os_time_get_nano : Nat → Int
  /-- The pointer returned by the n-th call of `util_sysprof_begin`. -/
  util_sysprof_begin : Nat → Nat

/-- The effects performed so far. -/
structure World where
  flagReads : Nat
  idsDrawn : Nat
  clockReads : Nat
  sysprofBegins : Nat
  formatCalls : Nat
  log : List SinkCall
  deriving DecidableEq, Repr

/-- The result of a function that contains an `assert`: either it returns, or
the assertion fails and the process stops in the world reached so far. -/
inductive Outcome (α : Type) where
  | ret (value : α) (w : World)
  | assertFailed (w : World)
  deriving DecidableEq, Repr

/-- The world in which a call ended, whether it returned or stopped at a failed
assertion. -/
def Outcome.world {α : Type} : Outcome α → World
  | .ret _ w => w
  | .assertFailed w => w

/-- Whether the call stopped at a failed assertion. -/
def Outcome.failed {α : Type} : Outcome α → Bool
  | .ret _ _ => false
  | .assertFailed _ => true

/-! ## External calls -/

/-- A sink receives a call. -/
def World.emit (w : World) (c : SinkCall) : World :=
  { w with log := w.log ++ [c] }

/-- Call `util_perfetto_is_tracing_enabled()`. -/
def util_perfetto_is_tracing_enabled (env : Env) (w : World) : Bool × World :=
  (env.util_perfetto_is_tracing_enabled w.flagReads, { w with flagReads := w.flagReads + 1 })

/-- Call `util_perfetto_next_id()`. -/
def util_perfetto_next_id (env : Env) (w : World) : Nat × World :=
  (env.util_perfetto_next_id w.idsDrawn, { w with idsDrawn := w.idsDrawn + 1 })

/-- Call `os_time_get_nano()`. -/
def os_time_get_nano (env : Env) (w : World) : Int × World :=
  (env.os_time_get_nano w.clockReads, { w with clockReads := w.clockReads + 1 })

/-- Call `util_sysprof_begin(name)`: the sink receives the call and answers with
a scope pointer. -/
def util_sysprof_begin (env : Env) (name : Name) (w : World) : Nat × World :=
  let p := env.util_sysprof_begin w.sysprofBegins
  (p, { w with sysprofBegins := w.sysprofBegins + 1,
               log := w.log ++ [SinkCall.util_sysprof_begin name p] })

/-- Call `vsnprintf(buf, size, format, args)`: at most `size - 1` characters of
the output are stored in the buffer; the returned value is the length of the
complete output.  The result is the pair of the buffer's text and the returned
length. -/
def vsnprintf (env : Env) (size : Nat) (format : Name) (args : List Arg) (w : World) :
    (Name × Nat) × World :=
  let out := env.printf_output format args
  ((out.take (size - 1), out.length), { w with formatCalls := w.formatCalls + 1 })

/-! ## The macros -/

/-- The macro `_MESA_TRACE_BEGIN(name)` in its three variants. -/
def _MESA_TRACE_BEGIN (b : Build) (env : Env) (name : Name) (w : World) : World :=
  match b.primary with
  | .perfetto =>
    let (enabled, w1) := util_perfetto_is_tracing_enabled env w
    if enabled then w1.emit (.util_perfetto_trace_begin name) else w1
  | .atrace => w.emit (.atrace_begin name)
  | .none => w

/-- The macro `_MESA_TRACE_FLOW_BEGIN(name, id)` in its three variants. -/
def _MESA_TRACE_FLOW_BEGIN (b : Build) (env : Env) (name : Name) (id : Nat) (w : World) : World :=
  match b.primary with
  | .perfetto =>
    let (enabled, w1) := util_perfetto_is_tracing_enabled env w
    if enabled then w1.emit (.util_perfetto_trace_begin_flow name id) else w1
  | .atrace => w.emit (.atrace_begin name)
  | .none => w

/-- The macro `_MESA_TRACE_END()` in its three variants. -/
def _MESA_TRACE_END (b : Build) (env : Env) (w : World) : World :=
  match b.primary with
  | .perfetto =>
    let (enabled, w1) := util_perfetto_is_tracing_enabled env w
    if enabled then w1.emit .util_perfetto_trace_end else w1
  | .atrace => w.emit .atrace_end
  | .none => w

/-- The macro `_MESA_TRACE_SET_COUNTER(name, value)`; empty unless perfetto is built in. -/
def _MESA_TRACE_SET_COUNTER (b : Build) (env : Env) (name : Name) (value : Int) (w : World) :
    World :=
  match b.primary with
  | .perfetto =>
    let (enabled, w1) := util_perfetto_is_tracing_enabled env w
    if enabled then w1.emit (.util_perfetto_counter_set name value) else w1
  | .atrace => w
  | .none => w

/-- The macro `_MESA_TRACE_TIMESTAMP_BEGIN(name, track_id, flow_id, clock, timestamp)`. -/
def _MESA_TRACE_TIMESTAMP_BEGIN (b : Build) (env : Env) (name : Name)
    (track_id flow_id clock : Nat) (timestamp : Int) (w : World) : World :=
  match b.primary with
  | .perfetto =>
    let (enabled, w1) := util_perfetto_is_tracing_enabled env w
    if enabled then
      w1.emit (.util_perfetto_trace_full_begin name track_id flow_id clock timestamp)
    else w1
  | .atrace => w
  | .none => w

/-- The macro `_MESA_TRACE_TIMESTAMP_END(name, track_id, clock, timestamp)`. -/
def _MESA_TRACE_TIMESTAMP_END (b : Build) (env : Env) (name : Name)
    (track_id clock : Nat) (timestamp : Int) (w : World) : World :=
  match b.primary with
  | .perfetto =>
    let (enabled, w1) := util_perfetto_is_tracing_enabled env w
    if enabled then w1.emit (.util_perfetto_trace_full_end name track_id clock timestamp)
    else w1
  | .atrace => w
  | .none => w

/-- The macro `_MESA_GPUVIS_TRACE_BEGIN(name)`. -/
def _MESA_GPUVIS_TRACE_BEGIN (b : Build) (name : Name) (w : World) : World :=
  if b.gpuvis then w.emit (.util_gpuvis_begin name) else w

/-- The macro `_MESA_GPUVIS_TRACE_END()`. -/
def _MESA_GPUVIS_TRACE_END (b : Build) (w : World) : World :=
  if b.gpuvis then w.emit .util_gpuvis_end else w

/-- The macro `_MESA_SYSPROF_TRACE_BEGIN(name)`: the sysprof scope, or `NULL`. -/
def _MESA_SYSPROF_TRACE_BEGIN (b : Build) (env : Env) (name : Name) (w : World) : Nat × World :=
  if b.sysprof then util_sysprof_begin env name w else (NULL, w)

/-- The macro `_MESA_SYSPROF_TRACE_END(scope)`. -/
def _MESA_SYSPROF_TRACE_END (b : Build) (scope : Nat) (w : World) : World :=
  if b.sysprof then w.emit (.util_sysprof_end scope) else w

/-! ## The functions -/

/-- The function `_mesa_trace_scope_begin(format, ...)`: format the name into the
buffer, assert the bound, then begin a span on each sink. -/
def _mesa_trace_scope_begin (b : Build) (env : Env) (format : Name) (args : List Arg)
    (w : World) : Outcome Nat :=
  let ((name, len), w1) := vsnprintf env _MESA_TRACE_SCOPE_MAX_NAME_LENGTH format args w
  if b.asserts && !(decide (len < _MESA_TRACE_SCOPE_MAX_NAME_LENGTH)) then
    .assertFailed w1
  else
    let w2 := _MESA_TRACE_BEGIN b env name w1
    let w3 := _MESA_GPUVIS_TRACE_BEGIN b name w2
    let (scope, w4) := _MESA_SYSPROF_TRACE_BEGIN b env name w3
    .ret scope w4

/-- The function `_mesa_trace_scope_flow_begin(name, flow)`; the pointee of `flow` is passed
in and its new value is returned next to the scope handle. -/
def _mesa_trace_scope_flow_begin (b : Build) (env : Env) (name : Name)
    (flow : mesa_trace_flow) (w : World) : (Nat × mesa_trace_flow) × World :=
  let (flow1, w1) :=
    if flow.id = 0 then
      let (id, wa) := util_perfetto_next_id env w
      let (t, wb) := os_time_get_nano env wa
      (({ id := id, start_time := t } : mesa_trace_flow), wb)
    else (flow, w)
  let w2 := _MESA_TRACE_FLOW_BEGIN b env name flow1.id w1
  let w3 := _MESA_GPUVIS_TRACE_BEGIN b name w2
  let (scope, w4) := _MESA_SYSPROF_TRACE_BEGIN b env name w3
  ((scope, flow1), w4)

/-- The function `_mesa_trace_scope_end(scope)`.  The C parameter points to the
cleanup variable; `scope` here is the value held by that variable, which is what
sysprof closes. -/
def _mesa_trace_scope_end (b : Build) (env : Env) (scope : Nat) (w : World) : World :=
  let w1 := _MESA_GPUVIS_TRACE_END b w
  let w2 := _MESA_TRACE_END b env w1
  _MESA_SYSPROF_TRACE_END b scope w2

/-! ## Scoped use of the functions

`_MESA_TRACE_SCOPE` and `_MESA_TRACE_SCOPE_FLOW` declare a variable initialised by
the begin function and carrying `cleanup(_mesa_trace_scope_end)`: when the
enclosing block is left, by whatever path, the end function runs on that
variable, innermost variable first. -/

/-- The flow tokens of the program, by address. -/
abbrev Flows := Nat → mesa_trace_flow

/-- One event in the life of a thread that uses the scope macros. -/
inductive Step where
  /-- Execution of `_MESA_TRACE_SCOPE(format, ...)`. -/
  | scope (format : Name) (args : List Arg)
  /-- Execution of `_MESA_TRACE_SCOPE_FLOW(name, flow)` with the token at address `flow`. -/
  | scope_flow (name : Name) (flow : Nat)
  /-- The innermost block holding a live scope variable is left. -/
  | exit
  deriving DecidableEq, Repr

/-- Execute one step.  `scopes` holds the values of the live cleanup variables,
innermost first.  An exit while no variable is live does not occur in a
properly nested sequence; it changes nothing. -/
def runStep (b : Build) (env : Env) (s : Step) (flows : Flows) (scopes : List Nat) (w : World) :
    Outcome (Flows × List Nat) :=
  match s with
  | .scope format args =>
    match _mesa_trace_scope_begin b env format args w with
    | .ret h w1 => .ret (flows, h :: scopes) w1
    | .assertFailed w1 => .assertFailed w1
  | .scope_flow name flow =>
    let ((h, tok), w1) := _mesa_trace_scope_flow_begin b env name (flows flow) w
    .ret (Function.update flows flow tok, h :: scopes) w1
  | .exit =>
    match scopes with
    | [] => .ret (flows, []) w
    | h :: rest => .ret (flows, rest) (_mesa_trace_scope_end b env h w)

/-- Execute a sequence of steps; a failed assertion stops the run. -/
def run (b : Build) (env : Env) : List Step → Flows → List Nat → World → Outcome (Flows × List Nat)
  | [], flows, scopes, w => .ret (flows, scopes) w
  | s :: rest, flows, scopes, w =>
    match runStep b env s flows scopes w with
    | .ret (flows1, scopes1) w1 => run b env rest flows1 scopes1 w1
    | .assertFailed w1 => .assertFailed w1

/-- A sequential series of `_mesa_trace_scope_flow_begin(name, &token)` calls,
each given by its name and the address of its token. -/
def flow_begin_series (b : Build) (env : Env) : List (Name × Nat) → Flows → World → Flows × World
  | [], flows, w => (flows, w)
  | (name, flow) :: rest, flows, w =>
    let ((_, tok), w1) := _mesa_trace_scope_flow_begin b env name (flows flow) w
    flow_begin_series b env rest (Function.update flows flow tok) w1

/-- Block structure: with `d` scopes open, no exit happens without an open scope
and every scope has been left at the end. -/
def nestedFrom : Nat → List Step → Bool
  | d, [] => d == 0
  | 0, .exit :: _ => false
  | d + 1, .exit :: rest => nestedFrom d rest
  | d, _ :: rest => nestedFrom (d + 1) rest

/-- A properly nested sequence of scope entries and scope exits. -/
def ProperlyNested (prog : List Step) : Prop := nestedFrom 0 prog = true

instance (prog : List Step) : Decidable (ProperlyNested prog) :=
  inferInstanceAs (Decidable (nestedFrom 0 prog = true))

/-- The formatted name of every `_MESA_TRACE_SCOPE` of the sequence fits the buffer. -/
def NamesFit (env : Env) (prog : List Step) : Prop :=
  ∀ format args, Step.scope format args ∈ prog →
    (env.printf_output format args).length < _MESA_TRACE_SCOPE_MAX_NAME_LENGTH

/-! ## What a sink observes -/

/-- The sinks the header can forward to. -/
inductive Sink where
  | perfetto
  | atrace
  | gpuvis
  | sysprof
  deriving DecidableEq, Repr

/-- The sink that receives a call. -/
def SinkCall.sink : SinkCall → Sink
  | .util_perfetto_trace_begin _ => .perfetto
  | .util_perfetto_trace_begin_flow _ _ => .perfetto
  | .util_perfetto_trace_end => .perfetto
  | .util_perfetto_counter_set _ _ => .perfetto
  | .util_perfetto_trace_full_begin _ _ _ _ _ => .perfetto
  | .util_perfetto_trace_full_end _ _ _ _ => .perfetto
  | .atrace_begin _ => .atrace
  | .atrace_end => .atrace
  | .util_gpuvis_begin _ => .gpuvis
  | .util_gpuvis_end => .gpuvis
  | .util_sysprof_begin _ _ => .sysprof
  | .util_sysprof_end _ => .sysprof

/-- An open span inside a sink: its name and, for sysprof, the scope pointer the
sink handed out for it (`NULL` for the sinks that hand out none). -/
structure Span where
  name : Name
  scope : Nat
  deriving DecidableEq, Repr

/-- The role of a call for the span stack of its sink. -/
inductive Role where
  | opens (sp : Span)
  | closes (scope : Option Nat)
  | other
  deriving DecidableEq, Repr

/-- Begin calls open a span, end calls close one (sysprof names the scope it
closes), counter and timestamped calls touch no scope. -/
def SinkCall.role : SinkCall → Role
  | .util_perfetto_trace_begin n => .opens ⟨n, NULL⟩
  | .util_perfetto_trace_begin_flow n _ => .opens ⟨n, NULL⟩
  | .util_perfetto_trace_end => .closes none
  | .atrace_begin n => .opens ⟨n, NULL⟩
  | .atrace_end => .closes none
  | .util_gpuvis_begin n => .opens ⟨n, NULL⟩
  | .util_gpuvis_end => .closes none
  | .util_sysprof_begin n p => .opens ⟨n, p⟩
  | .util_sysprof_end p => .closes (some p)
  | _ => .other

/-- An entry of the span record of a sink: a span was opened, or the named span
was closed. -/
inductive Mark where
  | opened (name : Name)
  | closed (name : Name)
  deriving DecidableEq, Repr

/-- Feed one call to the span stack of sink `s`.  A begin pushes a span; an end
pops the most recently begun span that is still open and fails when there is
none or when it names another scope than that span's. -/
def observe (s : Sink) (c : SinkCall) (st : List Span × List Mark) :
    Option (List Span × List Mark) :=
  if c.sink = s then
    match c.role with
    | .opens sp => some (sp :: st.1, st.2 ++ [Mark.opened sp.name])
    | .closes p =>
      match st.1 with
      | [] => none
      | top :: rest =>
        if p = none ∨ p = some top.scope then some (rest, st.2 ++ [Mark.closed top.name])
        else none
    | .other => some st
  else some st

/-- Feed a sequence of calls to the span stack of sink `s`. -/
def replay (s : Sink) : List SinkCall → List Span × List Mark → Option (List Span × List Mark)
  | [], st => some st
  | c :: cs, st =>
    match observe s c st with
    | some st1 => replay s cs st1
    | none => none

/-- The number of begin calls sink `s` received. -/
def beginCount (s : Sink) (log : List SinkCall) : Nat :=
  (log.filter (fun c => decide (c.sink = s) && (match c.role with | .opens _ => true | _ => false))).length

/-- The number of end calls sink `s` received. -/
def endCount (s : Sink) (log : List SinkCall) : Nat :=
  (log.filter (fun c => decide (c.sink = s) && (match c.role with | .closes _ => true | _ => false))).length

/-- The calls of a log that went to sink `s`. -/
def callsTo (s : Sink) (log : List SinkCall) : List SinkCall :=
  log.filter (fun c => decide (c.sink = s))

/-- The span or counter name a call carries, if it carries one. -/
def SinkCall.name? : SinkCall → Option Name
  | .util_perfetto_trace_begin n => some n
  | .util_perfetto_trace_begin_flow n _ => some n
  | .util_perfetto_counter_set n _ => some n
  | .util_perfetto_trace_full_begin n _ _ _ _ => some n
  | .util_perfetto_trace_full_end n _ _ _ => some n
  | .atrace_begin n => some n
  | .util_gpuvis_begin n => some n
  | .util_sysprof_begin n _ => some n
  | _ => none

/-- The call `_MESA_TRACE_BEGIN(name)` makes when the flag reads `en`. -/
def primaryBeginCalls (b : Build) (en : Bool) (name : Name) : List SinkCall :=
  match b.primary with
  | .perfetto => if en then [.util_perfetto_trace_begin name] else []
  | .atrace => [.atrace_begin name]
  | .none => []

/-- The call `_MESA_TRACE_FLOW_BEGIN(name, id)` makes when the flag reads `en`. -/
def primaryFlowBeginCalls (b : Build) (en : Bool) (name : Name) (id : Nat) : List SinkCall :=
  match b.primary with
  | .perfetto => if en then [.util_perfetto_trace_begin_flow name id] else []
  | .atrace => [.atrace_begin name]
  | .none => []

/-- The call `_MESA_TRACE_END()` makes when the flag reads `en`. -/
def primaryEndCalls (b : Build) (en : Bool) : List SinkCall :=
  match b.primary with
  | .perfetto => if en then [.util_perfetto_trace_end] else []
  | .atrace => [.atrace_end]
  | .none => []

/-- The calls of the two auxiliary sinks at a begin, in order. -/
def auxBeginCalls (b : Build) (name : Name) (p : Nat) : List SinkCall :=
  (if b.gpuvis then [.util_gpuvis_begin name] else []) ++
    (if b.sysprof then [.util_sysprof_begin name p] else [])

/-- The calls of `_mesa_trace_scope_end`, in order. -/
def endCalls (b : Build) (en : Bool) (scope : Nat) : List SinkCall :=
  (if b.gpuvis then [.util_gpuvis_end] else []) ++ primaryEndCalls b en ++
    (if b.sysprof then [.util_sysprof_end scope] else [])

/-- The number of flag reads one of the gated macros performs. -/
def flagReadsPerCall (b : Build) : Nat :=
  match b.primary with
  | .perfetto => 1
  | _ => 0

/-- The handle a begin function returns in world `w`. -/
def scopeHandle (b : Build) (env : Env) (w : World) : Nat :=
  if b.sysprof then env.util_sysprof_begin w.sysprofBegins else NULL

/-- The world after the sinks have been called by a begin function. -/
def afterBegin (b : Build) (w : World) (calls : List SinkCall) : World :=
  { w with flagReads := w.flagReads + flagReadsPerCall b,
           sysprofBegins := w.sysprofBegins + (if b.sysprof then 1 else 0),
           log := w.log ++ calls }

/-- The token after the first-use assignment of `_mesa_trace_scope_flow_begin`. -/
def assignedFlow (env : Env) (flow : mesa_trace_flow) (w : World) : mesa_trace_flow :=
  if flow.id = 0 then
    { id := env.util_perfetto_next_id w.idsDrawn, start_time := env.os_time_get_nano w.clockReads }
  else flow

/-- The world after the first-use assignment of `_mesa_trace_scope_flow_begin`. -/
def afterAssign (flow : mesa_trace_flow) (w : World) : World :=
  if flow.id = 0 then { w with idsDrawn := w.idsDrawn + 1, clockReads := w.clockReads + 1 } else w

/-! ## Concrete collaborators and inputs -/

/-- The decimal digits of an integer, as `%d` prints them. -/
def decimal (i : Int) : Name :=
  match i with
  | .ofNat n => Nat.toDigits 10 n
  | .negSucc n => '-' :: Nat.toDigits 10 (n + 1)

/-- The output of the printf family for the conversions `%d`, `%s` and `%%`;
every other character of the format is copied.  `pending` is true right after
a `%` has been read. -/
def renderFrom (pending : Bool) : Name → List Arg → Name
  | [], _ => if pending then ['%'] else []
  | c :: rest, args =>
    if pending then
      if c = 'd' then
        match args with
        | .int i :: args1 => decimal i ++ renderFrom false rest args1
        | _ => '%' :: c :: renderFrom false rest args
      else if c = 's' then
        match args with
        | .str s :: args1 => s ++ renderFrom false rest args1
        | _ => '%' :: c :: renderFrom false rest args
      else if c = '%' then '%' :: renderFrom false rest args
      else '%' :: c :: renderFrom false rest args
    else if c = '%' then renderFrom true rest args
    else c :: renderFrom false rest args

/-- The printf output for a format and its arguments. -/
def render (format : Name) (args : List Arg) : Name := renderFrom false format args

/-- Collaborators of a run in which tracing is enabled at every read: formats
are printed by `render`, ids count from 1, the clock starts at 1000 and sysprof
hands out the pointers 500, 501, ... -/
def envEnabled : Env :=
  { printf_output := render
    util_perfetto_is_tracing_enabled := fun _ => true
    util_perfetto_next_id := fun n => n + 1
    os_time_get_nano := fun n => 1000 + (n : Int)
    util_sysprof_begin := fun n => 500 + n }

/-- The same collaborators with tracing disabled at every read. -/
def envDisabled : Env :=
  { envEnabled with util_perfetto_is_tracing_enabled := fun _ => false }

/-- Tracing is disabled at the first read of the flag and enabled from the
second read on. -/
def envEnabledLater : Env :=
  { envEnabled with util_perfetto_is_tracing_enabled := fun n => decide (0 < n) }

/-- A string argument of 4096 characters. -/
def longArg : List Arg := [.str (List.replicate 4096 'x')]

/-- A world in which nothing has happened yet. -/
def World.start : World :=
  { flagReads := 0, idsDrawn := 0, clockReads := 0, sysprofBegins := 0, formatCalls := 0,
    log := [] }

/-- Every flow token is zero-initialised. -/
def Flows.zero : Flows := fun _ => { id := 0, start_time := 0 }

/-! ## Invariants of a run -/

/-- The sink is compiled in and, for perfetto, the flag reads `en`. -/
def receives (b : Build) (en : Bool) : Sink → Bool
  | .perfetto => decide (b.primary = .perfetto) && en
  | .atrace => decide (b.primary = .atrace)
  | .gpuvis => b.gpuvis
  | .sysprof => b.sysprof

/-- The link between the live cleanup variables of the thread and the spans a
sink holds open: a sink that receives the calls holds one open span per live
variable, and the sysprof spans carry the variables' values. -/
def Tracks (b : Build) (en : Bool) (s : Sink) (scopes : List Nat) (op : List Span) : Prop :=
  if receives b en s = true then
    op.length = scopes.length ∧ (s = .sysprof → op.map Span.scope = scopes)
  else op = []

/-- The state of the tokens after `n` ids have been drawn: every id in a token is
0 or one of the ids drawn, and an assigned id is held by one token only. -/
def FlowInv (env : Env) (flows : Flows) (n : Nat) : Prop :=
  (∀ a, (flows a).id = 0 ∨ ∃ k, k < n ∧ (flows a).id = env.util_perfetto_next_id k) ∧
  (∀ a c, a ≠ c → (flows a).id ≠ 0 → (flows a).id ≠ (flows c).id)

/-! ## Lemmas -/

theorem _MESA_TRACE_BEGIN_eq (b : Build) (env : Env) (name : Name) (w : World) :
    _MESA_TRACE_BEGIN b env name w =
      { w with flagReads := w.flagReads + flagReadsPerCall b,
               log := w.log ++ primaryBeginCalls b
                 (env.util_perfetto_is_tracing_enabled w.flagReads) name } := by
  rcases b with ⟨p, g, sy, a⟩
  cases p <;>
    simp [_MESA_TRACE_BEGIN, util_perfetto_is_tracing_enabled, World.emit, flagReadsPerCall,
      primaryBeginCalls]
  split <;> simp

theorem _MESA_TRACE_FLOW_BEGIN_eq (b : Build) (env : Env) (name : Name) (id : Nat) (w : World) :
    _MESA_TRACE_FLOW_BEGIN b env name id w =
      { w with flagReads := w.flagReads + flagReadsPerCall b,
               log := w.log ++ primaryFlowBeginCalls b
                 (env.util_perfetto_is_tracing_enabled w.flagReads) name id } := by
  rcases b with ⟨p, g, sy, a⟩
  cases p <;>
    simp [_MESA_TRACE_FLOW_BEGIN, util_perfetto_is_tracing_enabled, World.emit, flagReadsPerCall,
      primaryFlowBeginCalls]
  split <;> simp

theorem _MESA_TRACE_END_eq (b : Build) (env : Env) (w : World) :
    _MESA_TRACE_END b env w =
      { w with flagReads := w.flagReads + flagReadsPerCall b,
               log := w.log ++ primaryEndCalls b
                 (env.util_perfetto_is_tracing_enabled w.flagReads) } := by
  rcases b with ⟨p, g, sy, a⟩
  cases p <;>
    simp [_MESA_TRACE_END, util_perfetto_is_tracing_enabled, World.emit, flagReadsPerCall,
      primaryEndCalls]
  split <;> simp

theorem _mesa_trace_scope_end_eq (b : Build) (env : Env) (scope : Nat) (w : World) :
    _mesa_trace_scope_end b env scope w =
      { w with flagReads := w.flagReads + flagReadsPerCall b,
               log := w.log ++ endCalls b (env.util_perfetto_is_tracing_enabled w.flagReads)
                 scope } := by
  rcases b with ⟨p, g, sy, a⟩
  cases g <;> cases sy <;>
    simp [_mesa_trace_scope_end, _MESA_TRACE_END_eq, _MESA_GPUVIS_TRACE_END,
      _MESA_SYSPROF_TRACE_END, World.emit, endCalls]

theorem _mesa_trace_scope_begin_eq (b : Build) (env : Env) (format : Name) (args : List Arg)
    (w : World) :
    _mesa_trace_scope_begin b env format args w =
      if b.asserts = true ∧
          ¬ (env.printf_output format args).length < _MESA_TRACE_SCOPE_MAX_NAME_LENGTH then
        .assertFailed { w with formatCalls := w.formatCalls + 1 }
      else
        .ret (scopeHandle b env w)
          (afterBegin b { w with formatCalls := w.formatCalls + 1 }
            (primaryBeginCalls b (env.util_perfetto_is_tracing_enabled w.flagReads)
                ((env.printf_output format args).take (_MESA_TRACE_SCOPE_MAX_NAME_LENGTH - 1)) ++
              auxBeginCalls b
                ((env.printf_output format args).take (_MESA_TRACE_SCOPE_MAX_NAME_LENGTH - 1))
                (scopeHandle b env w))) := by
  rcases b with ⟨p, g, sy, a⟩
  cases g <;> cases sy <;> cases a <;>
    simp [_mesa_trace_scope_begin, vsnprintf, _MESA_TRACE_BEGIN_eq, _MESA_GPUVIS_TRACE_BEGIN,
      _MESA_SYSPROF_TRACE_BEGIN, util_sysprof_begin, World.emit, auxBeginCalls, afterBegin,
      scopeHandle]

theorem afterAssign_log (flow : mesa_trace_flow) (w : World) : (afterAssign flow w).log = w.log := by
  unfold afterAssign; split <;> rfl

theorem afterAssign_flagReads (flow : mesa_trace_flow) (w : World) :
    (afterAssign flow w).flagReads = w.flagReads := by
  unfold afterAssign; split <;> rfl

theorem afterAssign_sysprofBegins (flow : mesa_trace_flow) (w : World) :
    (afterAssign flow w).sysprofBegins = w.sysprofBegins := by
  unfold afterAssign; split <;> rfl

theorem _mesa_trace_scope_flow_begin_eq (b : Build) (env : Env) (name : Name)
    (flow : mesa_trace_flow) (w : World) :
    _mesa_trace_scope_flow_begin b env name flow w =
      ((scopeHandle b env w, assignedFlow env flow w),
        afterBegin b (afterAssign flow w)
          (primaryFlowBeginCalls b (env.util_perfetto_is_tracing_enabled w.flagReads) name
              (assignedFlow env flow w).id ++
            auxBeginCalls b name (scopeHandle b env w))) := by
  rcases b with ⟨p, g, sy, a⟩
  by_cases h0 : flow.id = 0 <;> cases g <;> cases sy <;>
    simp [_mesa_trace_scope_flow_begin, h0, util_perfetto_next_id, os_time_get_nano,
      _MESA_TRACE_FLOW_BEGIN_eq, _MESA_GPUVIS_TRACE_BEGIN, _MESA_SYSPROF_TRACE_BEGIN,
      util_sysprof_begin, World.emit, auxBeginCalls, afterBegin, scopeHandle, assignedFlow,
      afterAssign]

theorem replay_append (s : Sink) (l1 l2 : List SinkCall) (st : List Span × List Mark) :
    replay s (l1 ++ l2) st = (replay s l1 st).bind (replay s l2) := by
  induction l1 generalizing st with
  | nil => simp [replay]
  | cons c cs ih =>
    simp only [List.cons_append, replay]
    cases observe s c st with
    | none => simp
    | some st1 => simpa using ih st1

theorem replay_begin (b : Build) (en : Bool) (s : Sink) (name : Name) (p : Nat)
    (op : List Span) (tr : List Mark) :
    replay s (primaryBeginCalls b en name ++ auxBeginCalls b name p) (op, tr) =
      if receives b en s = true then
        some (⟨name, if s = .sysprof then p else NULL⟩ :: op, tr ++ [Mark.opened name])
      else some (op, tr) := by
  rcases b with ⟨pr, g, sy, a⟩
  cases pr <;> cases g <;> cases sy <;> cases en <;> cases s <;>
    simp [primaryBeginCalls, auxBeginCalls, replay, observe, SinkCall.sink, SinkCall.role,
      receives]

theorem replay_flow_begin (b : Build) (en : Bool) (s : Sink) (name : Name) (id p : Nat)
    (op : List Span) (tr : List Mark) :
    replay s (primaryFlowBeginCalls b en name id ++ auxBeginCalls b name p) (op, tr) =
      if receives b en s = true then
        some (⟨name, if s = .sysprof then p else NULL⟩ :: op, tr ++ [Mark.opened name])
      else some (op, tr) := by
  rcases b with ⟨pr, g, sy, a⟩
  cases pr <;> cases g <;> cases sy <;> cases en <;> cases s <;>
    simp [primaryFlowBeginCalls, auxBeginCalls, replay, observe, SinkCall.sink, SinkCall.role,
      receives]

theorem replay_end (b : Build) (en : Bool) (s : Sink) (h : Nat) (top : Span)
    (op : List Span) (tr : List Mark) (hs : s = .sysprof → top.scope = h) :
    replay s (endCalls b en h) (top :: op, tr) =
      if receives b en s = true then some (op, tr ++ [Mark.closed top.name])
      else some (top :: op, tr) := by
  rcases b with ⟨pr, g, sy, a⟩
  cases pr <;> cases g <;> cases sy <;> cases en <;> cases s <;>
    simp [endCalls, primaryEndCalls, replay, observe, SinkCall.sink, SinkCall.role,
      receives] <;> simp_all

theorem replay_end_idle (b : Build) (en : Bool) (s : Sink) (h : Nat)
    (st : List Span × List Mark) (hr : receives b en s = false) :
    replay s (endCalls b en h) st = some st := by
  rcases b with ⟨pr, g, sy, a⟩
  cases pr <;> cases g <;> cases sy <;> cases en <;> cases s <;>
    simp_all [endCalls, primaryEndCalls, replay, observe, SinkCall.sink, SinkCall.role,
      receives]

theorem replay_counts (s : Sink) (log : List SinkCall) :
    ∀ st st1 : List Span × List Mark, replay s log st = some st1 →
      beginCount s log + st.1.length = endCount s log + st1.1.length := by
  induction log with
  | nil =>
    intro st st1 h
    simp [replay] at h
    simp [beginCount, endCount, h]
  | cons c cs ih =>
    intro st st1 h
    simp only [replay] at h
    cases hobs : observe s c st with
    | none => simp [hobs] at h
    | some st2 =>
      rw [hobs] at h
      have hrec := ih st2 st1 h
      have hb : beginCount s (c :: cs) = beginCount s cs +
          (if c.sink = s then (match c.role with | .opens _ => 1 | _ => 0) else 0) := by
        by_cases hs : c.sink = s <;> cases hr : c.role <;>
          simp [beginCount, List.filter_cons, hs, hr]
      have he : endCount s (c :: cs) = endCount s cs +
          (if c.sink = s then (match c.role with | .closes _ => 1 | _ => 0) else 0) := by
        by_cases hs : c.sink = s <;> cases hr : c.role <;>
          simp [endCount, List.filter_cons, hs, hr]
      rw [hb, he]
      unfold observe at hobs
      by_cases hs : c.sink = s
      · simp only [hs, if_true] at hobs ⊢
        cases hr : c.role with
        | opens sp =>
          simp only [hr] at hobs
          simp only [Option.some.injEq] at hobs
          subst hobs
          simp only [List.length_cons] at hrec
          simp only
          omega
        | closes p =>
          simp only [hr] at hobs
          cases hst : st.1 with
          | nil => simp [hst] at hobs
          | cons top rest =>
            simp only [hst] at hobs
            split at hobs
            · simp only [Option.some.injEq] at hobs
              subst hobs
              simp only [List.length_cons] at hrec ⊢
              omega
            · simp at hobs
        | other =>
          simp only [hr, Option.some.injEq] at hobs
          subst hobs
          simp only
          omega
      · simp only [hs, if_false, Option.some.injEq] at hobs ⊢
        subst hobs
        omega

theorem tracks_nil (b : Build) (en : Bool) (s : Sink) (op : List Span)
    (h : Tracks b en s [] op) : op = [] := by
  unfold Tracks at h
  split at h
  · exact List.length_eq_zero.mp h.1
  · exact h

theorem tracks_empty (b : Build) (en : Bool) (s : Sink) : Tracks b en s [] [] := by
  unfold Tracks
  split <;> simp

theorem nestedFrom_enter (d : Nat) (st : Step) (rest : List Step) (h : st ≠ .exit) :
    nestedFrom d (st :: rest) = nestedFrom (d + 1) rest := by
  cases st with
  | exit => exact absurd rfl h
  | scope f a => cases d <;> simp [nestedFrom]
  | scope_flow n a => cases d <;> simp [nestedFrom]

/-- After a begin whose calls replay as a push, the sink tracks the new variable. -/
theorem tracks_after_begin (b : Build) (env : Env) (en : Bool) (s : Sink) (name : Name)
    (w : World) (scopes : List Nat) (op : List Span) (tr : List Mark)
    (calls : List SinkCall)
    (hcalls : ∀ op tr, replay s calls (op, tr) =
      if receives b en s = true then
        some (⟨name, if s = .sysprof then scopeHandle b env w else NULL⟩ :: op,
          tr ++ [Mark.opened name])
      else some (op, tr))
    (hrep : replay s w.log ([], []) = some (op, tr)) (ht : Tracks b en s scopes op) :
    ∃ op1 tr1, replay s (w.log ++ calls) ([], []) = some (op1, tr1) ∧
      Tracks b en s (scopeHandle b env w :: scopes) op1 := by
  rw [replay_append, hrep, Option.some_bind, hcalls]
  unfold Tracks at ht ⊢
  by_cases hr : receives b en s = true
  · simp only [hr, if_true] at ht ⊢
    refine ⟨_, _, rfl, ?_, ?_⟩
    · simp [ht.1]
    · intro hs
      simp [hs, ht.2 hs]
  · simp only [hr] at ht ⊢
    exact ⟨_, _, rfl, ht⟩

theorem tracks_after_end (b : Build) (en : Bool) (s : Sink) (h : Nat)
    (log : List SinkCall) (scopes : List Nat) (op : List Span) (tr : List Mark)
    (hrep : replay s log ([], []) = some (op, tr)) (ht : Tracks b en s (h :: scopes) op) :
    ∃ op1 tr1, replay s (log ++ endCalls b en h) ([], []) = some (op1, tr1) ∧
      Tracks b en s scopes op1 := by
  rw [replay_append, hrep, Option.some_bind]
  unfold Tracks at ht ⊢
  by_cases hr : receives b en s = true
  · simp only [hr, if_true] at ht ⊢
    cases op with
    | nil => simp at ht
    | cons top rest =>
      have hs : s = .sysprof → top.scope = h := by
        intro hs
        have := ht.2 hs
        simp at this
        exact this.1
      rw [replay_end b en s h top rest tr hs]
      simp only [hr, if_true]
      refine ⟨_, _, rfl, ?_, ?_⟩
      · simpa using ht.1
      · intro hs1
        have := ht.2 hs1
        simp at this
        exact this.2
  · simp only [hr] at ht ⊢
    rw [replay_end_idle b en s h _ (by simpa using hr)]
    exact ⟨_, _, rfl, ht⟩

theorem namesFit_tail (b : Build) (env : Env) (st : Step) (rest : List Step)
    (h : b.asserts = false ∨ NamesFit env (st :: rest)) :
    b.asserts = false ∨ NamesFit env rest := by
  rcases h with h | h
  · exact Or.inl h
  · exact Or.inr (fun f a hm => h f a (List.mem_cons_of_mem _ hm))

/-- A properly nested continuation runs to completion, closes every live scope
variable and leaves every sink with an empty span stack. -/
theorem run_tracks (b : Build) (env : Env) (en : Bool)
    (hflag : ∀ n, env.util_perfetto_is_tracing_enabled n = en) :
    ∀ (prog : List Step) (flows : Flows) (scopes : List Nat) (w : World),
      nestedFrom scopes.length prog = true →
      (b.asserts = false ∨ NamesFit env prog) →
      ∃ flows1 w1, run b env prog flows scopes w = .ret (flows1, []) w1 ∧
        ∀ s op tr, replay s w.log ([], []) = some (op, tr) → Tracks b en s scopes op →
          ∃ tr1, replay s w1.log ([], []) = some ([], tr1) := by
  intro prog
  induction prog with
  | nil =>
    intro flows scopes w hn _
    have hs : scopes = [] := by
      simpa [nestedFrom, List.length_eq_zero] using hn
    subst hs
    refine ⟨flows, w, rfl, ?_⟩
    intro s op tr hrep ht
    have := tracks_nil b en s op ht
    subst this
    exact ⟨tr, hrep⟩
  | cons st rest ih =>
    intro flows scopes w hn hfit
    have hfit1 := namesFit_tail b env st rest hfit
    cases st with
    | scope format args =>
      rw [nestedFrom_enter _ _ _ (by simp)] at hn
      have hok : ¬ (b.asserts = true ∧
          ¬ (env.printf_output format args).length < _MESA_TRACE_SCOPE_MAX_NAME_LENGTH) := by
        rintro ⟨ha, hl⟩
        rcases hfit with h | h
        · simp [ha] at h
        · exact hl (h format args (List.mem_cons_self _ _))
      have hrun : run b env (Step.scope format args :: rest) flows scopes w =
          run b env rest flows (scopeHandle b env w :: scopes)
            (afterBegin b { w with formatCalls := w.formatCalls + 1 }
              (primaryBeginCalls b (env.util_perfetto_is_tracing_enabled w.flagReads)
                  ((env.printf_output format args).take
                    (_MESA_TRACE_SCOPE_MAX_NAME_LENGTH - 1)) ++
                auxBeginCalls b
                  ((env.printf_output format args).take
                    (_MESA_TRACE_SCOPE_MAX_NAME_LENGTH - 1))
                  (scopeHandle b env w))) := by
        simp only [run, runStep, _mesa_trace_scope_begin_eq, if_neg hok]
      rw [hflag] at hrun
      obtain ⟨flows1, w1, hr, hinv⟩ := ih flows (scopeHandle b env w :: scopes) _
        (by simpa using hn) hfit1
      refine ⟨flows1, w1, hrun.trans hr, ?_⟩
      intro s op tr hrep ht
      obtain ⟨op1, tr1, hrep1, ht1⟩ := tracks_after_begin b env en s _ w scopes op tr _
        (fun op tr => replay_begin b en s _ _ op tr) hrep ht
      exact hinv s op1 tr1 hrep1 ht1
    | scope_flow name flow =>
      rw [nestedFrom_enter _ _ _ (by simp)] at hn
      have hrun : run b env (Step.scope_flow name flow :: rest) flows scopes w =
          run b env rest (Function.update flows flow (assignedFlow env (flows flow) w))
            (scopeHandle b env w :: scopes)
            (afterBegin b (afterAssign (flows flow) w)
              (primaryFlowBeginCalls b (env.util_perfetto_is_tracing_enabled w.flagReads) name
                  (assignedFlow env (flows flow) w).id ++
                auxBeginCalls b name (scopeHandle b env w))) := by
        simp only [run, runStep, _mesa_trace_scope_flow_begin_eq]
      rw [hflag] at hrun
      obtain ⟨flows1, w1, hr, hinv⟩ := ih _ (scopeHandle b env w :: scopes) _
        (by simpa using hn) hfit1
      refine ⟨flows1, w1, hrun.trans hr, ?_⟩
      intro s op tr hrep ht
      obtain ⟨op1, tr1, hrep1, ht1⟩ := tracks_after_begin b env en s _ w scopes op tr _
        (fun op tr => replay_flow_begin b en s _ _ _ op tr) hrep ht
      refine hinv s op1 tr1 ?_ ht1
      simpa [afterBegin, afterAssign_log] using hrep1
    | exit =>
      cases scopes with
      | nil => simp [nestedFrom] at hn
      | cons h scopes1 =>
        have hn1 : nestedFrom scopes1.length rest = true := by
          simpa [nestedFrom] using hn
        obtain ⟨flows1, w1, hr, hinv⟩ := ih flows scopes1 (_mesa_trace_scope_end b env h w)
          hn1 hfit1
        refine ⟨flows1, w1, by simpa only [run, runStep] using hr, ?_⟩
        intro s op tr hrep ht
        obtain ⟨op1, tr1, hrep1, ht1⟩ := tracks_after_end b en s h w.log scopes1 op tr hrep ht
        refine hinv s op1 tr1 ?_ ht1
        rw [_mesa_trace_scope_end_eq, hflag]
        exact hrep1

theorem callsTo_append (s : Sink) (l1 l2 : List SinkCall) :
    callsTo s (l1 ++ l2) = callsTo s l1 ++ callsTo s l2 := by
  simp [callsTo]

theorem callsTo_perfetto_begin_off (b : Build) (name : Name) (p : Nat) :
    callsTo .perfetto (primaryBeginCalls b false name ++ auxBeginCalls b name p) = [] := by
  rcases b with ⟨pr, g, sy, a⟩
  cases pr <;> cases g <;> cases sy <;>
    simp [callsTo, primaryBeginCalls, auxBeginCalls, SinkCall.sink]

theorem callsTo_perfetto_flow_begin_off (b : Build) (name : Name) (id p : Nat) :
    callsTo .perfetto (primaryFlowBeginCalls b false name id ++ auxBeginCalls b name p) = [] := by
  rcases b with ⟨pr, g, sy, a⟩
  cases pr <;> cases g <;> cases sy <;>
    simp [callsTo, primaryFlowBeginCalls, auxBeginCalls, SinkCall.sink]

theorem callsTo_perfetto_end_off (b : Build) (scope : Nat) :
    callsTo .perfetto (endCalls b false scope) = [] := by
  rcases b with ⟨pr, g, sy, a⟩
  cases pr <;> cases g <;> cases sy <;>
    simp [callsTo, endCalls, primaryEndCalls, SinkCall.sink]

theorem scope_begin_world_log (b : Build) (env : Env) (format : Name) (args : List Arg)
    (w : World) :
    (_mesa_trace_scope_begin b env format args w).world.log = w.log ∨
    (_mesa_trace_scope_begin b env format args w).world.log =
      w.log ++ (primaryBeginCalls b (env.util_perfetto_is_tracing_enabled w.flagReads)
          ((env.printf_output format args).take (_MESA_TRACE_SCOPE_MAX_NAME_LENGTH - 1)) ++
        auxBeginCalls b
          ((env.printf_output format args).take (_MESA_TRACE_SCOPE_MAX_NAME_LENGTH - 1))
          (scopeHandle b env w)) := by
  rw [_mesa_trace_scope_begin_eq]
  split
  · exact Or.inl rfl
  · exact Or.inr rfl

theorem render_percent_s (s : Name) : render ['%', 's'] [.str s] = s := by
  simp [render, renderFrom]

theorem flow_begin_series_cons (b : Build) (env : Env) (name : Name) (flow : Nat)
    (rest : List (Name × Nat)) (flows : Flows) (w : World) :
    ∃ w1, w1.idsDrawn = (afterAssign (flows flow) w).idsDrawn ∧
      flow_begin_series b env ((name, flow) :: rest) flows w =
        flow_begin_series b env rest
          (Function.update flows flow (assignedFlow env (flows flow) w)) w1 := by
  refine ⟨afterBegin b (afterAssign (flows flow) w)
    (primaryFlowBeginCalls b (env.util_perfetto_is_tracing_enabled w.flagReads) name
        (assignedFlow env (flows flow) w).id ++
      auxBeginCalls b name (scopeHandle b env w)), ?_, ?_⟩
  · simp [afterBegin]
  · simp only [flow_begin_series, _mesa_trace_scope_flow_begin_eq]

theorem flowInv_step (env : Env) (hmono : StrictMono env.util_perfetto_next_id)
    (hnz : ∀ n, env.util_perfetto_next_id n ≠ 0) (flows : Flows) (w : World) (flow : Nat)
    (hinv : FlowInv env flows w.idsDrawn) :
    FlowInv env (Function.update flows flow (assignedFlow env (flows flow) w))
      (afterAssign (flows flow) w).idsDrawn := by
  by_cases h0 : (flows flow).id = 0
  · have hnew : assignedFlow env (flows flow) w =
        { id := env.util_perfetto_next_id w.idsDrawn,
          start_time := env.os_time_get_nano w.clockReads } := by
      simp [assignedFlow, h0]
    have hn : (afterAssign (flows flow) w).idsDrawn = w.idsDrawn + 1 := by
      simp [afterAssign, h0]
    rw [hnew, hn]
    have hold : ∀ a, (flows a).id ≠ 0 →
        (flows a).id ≠ env.util_perfetto_next_id w.idsDrawn := by
      intro a ha
      rcases hinv.1 a with hz | ⟨k, hk, hid⟩
      · exact absurd hz ha
      · rw [hid]
        exact (hmono hk).ne
    refine ⟨?_, ?_⟩
    · intro a
      by_cases ha : a = flow
      · subst ha
        exact Or.inr ⟨w.idsDrawn, Nat.lt_succ_self _, by simp⟩
      · rw [Function.update_noteq ha]
        rcases hinv.1 a with hz | ⟨k, hk, hid⟩
        · exact Or.inl hz
        · exact Or.inr ⟨k, Nat.lt_succ_of_lt hk, hid⟩
    · intro a c hac hne
      by_cases ha : a = flow
      · subst ha
        have hc : c ≠ a := fun h => hac h.symm
        rw [Function.update_same, Function.update_noteq hc]
        by_cases hcz : (flows c).id = 0
        · rw [hcz]
          exact hnz _
        · exact fun h => hold c hcz h.symm
      · rw [Function.update_noteq ha] at hne ⊢
        by_cases hc : c = flow
        · subst hc
          rw [Function.update_same]
          exact hold a hne
        · rw [Function.update_noteq hc]
          exact hinv.2 a c hac hne
  · have hnew : assignedFlow env (flows flow) w = flows flow := by
      simp [assignedFlow, h0]
    have hn : (afterAssign (flows flow) w).idsDrawn = w.idsDrawn := by
      simp [afterAssign, h0]
    rw [hnew, hn, Function.update_eq_self]
    exact hinv

theorem flow_begin_series_inv (b : Build) (env : Env)
    (hmono : StrictMono env.util_perfetto_next_id)
    (hnz : ∀ n, env.util_perfetto_next_id n ≠ 0) :
    ∀ (calls : List (Name × Nat)) (flows : Flows) (w : World),
      FlowInv env flows w.idsDrawn →
      FlowInv env (flow_begin_series b env calls flows w).1
        (flow_begin_series b env calls flows w).2.idsDrawn := by
  intro calls
  induction calls with
  | nil => intro flows w h; exact h
  | cons c rest ih =>
    intro flows w h
    obtain ⟨name, flow⟩ := c
    obtain ⟨w1, hw1, hstep⟩ := flow_begin_series_cons b env name flow rest flows w
    rw [hstep]
    exact ih _ w1 (by rw [hw1]; exact flowInv_step env hmono hnz flows w flow h)

theorem flow_begin_series_keeps (b : Build) (env : Env) :
    ∀ (calls : List (Name × Nat)) (flows : Flows) (w : World) (a : Nat),
      (flows a).id ≠ 0 → (flow_begin_series b env calls flows w).1 a = flows a := by
  intro calls
  induction calls with
  | nil => intro flows w a _; rfl
  | cons c rest ih =>
    intro flows w a ha
    obtain ⟨name, flow⟩ := c
    obtain ⟨w1, -, hstep⟩ := flow_begin_series_cons b env name flow rest flows w
    rw [hstep]
    have hsame : Function.update flows flow (assignedFlow env (flows flow) w) a = flows a := by
      by_cases hf : a = flow
      · subst hf
        simp [assignedFlow, ha]
      · exact Function.update_noteq hf _ _
    rw [ih _ w1 a (by rw [hsame]; exact ha), hsame]

theorem flow_begin_series_used (b : Build) (env : Env)
    (hnz : ∀ n, env.util_perfetto_next_id n ≠ 0) :
    ∀ (calls : List (Name × Nat)) (flows : Flows) (w : World) (a : Nat),
      a ∈ calls.map Prod.snd → ((flow_begin_series b env calls flows w).1 a).id ≠ 0 := by
  intro calls
  induction calls with
  | nil => intro flows w a ha; simp at ha
  | cons c rest ih =>
    intro flows w a ha
    obtain ⟨name, flow⟩ := c
    obtain ⟨w1, -, hstep⟩ := flow_begin_series_cons b env name flow rest flows w
    rw [hstep]
    by_cases hf : a = flow
    · subst hf
      have hnew : (Function.update flows a (assignedFlow env (flows a) w) a).id ≠ 0 := by
        rw [Function.update_same]
        unfold assignedFlow
        split
        · exact hnz _
        · assumption
      rw [flow_begin_series_keeps b env rest _ w1 a hnew]
      exact hnew
    · have hin : a ∈ rest.map Prod.snd := by
        simp only [List.map_cons, List.mem_cons] at ha
        rcases ha with h | h
        · exact absurd h hf
        · exact h
      exact ih _ w1 a hin

theorem flow_begin_series_append (b : Build) (env : Env) :
    ∀ (c1 c2 : List (Name × Nat)) (flows : Flows) (w : World),
      flow_begin_series b env (c1 ++ c2) flows w =
        flow_begin_series b env c2 (flow_begin_series b env c1 flows w).1
          (flow_begin_series b env c1 flows w).2 := by
  intro c1
  induction c1 with
  | nil => intro c2 flows w; rfl
  | cons c rest ih =>
    intro c2 flows w
    obtain ⟨name, flow⟩ := c
    simp only [List.cons_append, flow_begin_series]
    exact ih c2 _ _

/-- A call of `_mesa_trace_scope_begin` that is not stopped by the bound assertion
returns, and the calls it makes are: the begin of the primary sink (for
perfetto only when the flag reads true), then the gpuvis begin, then the
sysprof begin, each for the sinks compiled in. -/
theorem scope_begin_returns_log (b : Build) (env : Env) (format : Name) (args : List Arg)
    (w : World)
    (hc : ¬ (b.asserts = true ∧
      ¬ (env.printf_output format args).length < _MESA_TRACE_SCOPE_MAX_NAME_LENGTH)) :
    ∃ h w1, _mesa_trace_scope_begin b env format args w = .ret h w1 ∧
      w1.log = w.log ++
        (match b.primary with
          | .perfetto =>
            if env.util_perfetto_is_tracing_enabled w.flagReads = true then
              [SinkCall.util_perfetto_trace_begin
                ((env.printf_output format args).take (_MESA_TRACE_SCOPE_MAX_NAME_LENGTH - 1))]
            else []
          | .atrace =>
            [SinkCall.atrace_begin
              ((env.printf_output format args).take (_MESA_TRACE_SCOPE_MAX_NAME_LENGTH - 1))]
          | .none => []) ++
        (if b.gpuvis = true then
          [SinkCall.util_gpuvis_begin
            ((env.printf_output format args).take (_MESA_TRACE_SCOPE_MAX_NAME_LENGTH - 1))]
         else []) ++
        (if b.sysprof = true then
          [SinkCall.util_sysprof_begin
            ((env.printf_output format args).take (_MESA_TRACE_SCOPE_MAX_NAME_LENGTH - 1)) h]
         else []) := by
  rw [_mesa_trace_scope_begin_eq, if_neg hc]
  refine ⟨_, _, rfl, ?_⟩
  rcases b with ⟨pr, g, sy, a⟩
  cases pr <;> cases g <;> cases sy <;>
    simp [afterBegin, primaryBeginCalls, auxBeginCalls, scopeHandle]

/-! ## The claims -/

/-- C1: for every properly nested sequence of scope entries and scope exits,
with the enablement flag reading the same value `en` at every read, the run
completes (no assertion fails when assertions are compiled out or every
formatted name fits), every scope variable has been cleaned up, and each sink
has received as many end calls as begin calls, every end closing the most
recently begun span still open in that sink (replaying the sink's calls on a
span stack never fails and ends with the empty stack).  In particular, with
perfetto compiled in and the flag reading true, entering A, entering B and
leaving both is seen by perfetto as opened A, opened B, closed B, closed A. -/
theorem C1_nested_scopes_close_in_stack_order (b : Build) (env : Env) (en : Bool)
    (prog : List Step) (flows : Flows) (w : World)
    (hflag : ∀ n, env.util_perfetto_is_tracing_enabled n = en)
    (hnest : ProperlyNested prog)
    (hfit : b.asserts = false ∨ NamesFit env prog)
    (hlog : w.log = []) :
    ∃ flows1 w1, run b env prog flows [] w = .ret (flows1, []) w1 ∧
      (∀ s, beginCount s w1.log = endCount s w1.log ∧
        ∃ tr, replay s w1.log ([], []) = some ([], tr)) ∧
      (∀ fa aa fb ab, prog = [.scope fa aa, .scope fb ab, .exit, .exit] →
        b.primary = .perfetto → en = true →
        (env.printf_output fa aa).length < _MESA_TRACE_SCOPE_MAX_NAME_LENGTH →
        (env.printf_output fb ab).length < _MESA_TRACE_SCOPE_MAX_NAME_LENGTH →
        replay .perfetto w1.log ([], []) =
          some ([], [Mark.opened (env.printf_output fa aa), Mark.opened (env.printf_output fb ab),
            Mark.closed (env.printf_output fb ab), Mark.closed (env.printf_output fa aa)])) := by
  obtain ⟨flows1, w1, hrun, hinv⟩ := run_tracks b env en hflag prog flows [] w hnest hfit
  have hall : ∀ s, ∃ tr, replay s w1.log ([], []) = some ([], tr) := fun s =>
    hinv s [] [] (by rw [hlog]; rfl) (tracks_empty b en s)
  refine ⟨flows1, w1, hrun, ?_, ?_⟩
  · intro s
    obtain ⟨tr, htr⟩ := hall s
    refine ⟨?_, tr, htr⟩
    simpa using replay_counts s w1.log _ _ htr
  · intro fa aa fb ab hprog hp hen hla hlb
    subst hprog
    subst hen
    have hta : (env.printf_output fa aa).take (_MESA_TRACE_SCOPE_MAX_NAME_LENGTH - 1) =
        env.printf_output fa aa := List.take_of_length_le (by omega)
    have htb : (env.printf_output fb ab).take (_MESA_TRACE_SCOPE_MAX_NAME_LENGTH - 1) =
        env.printf_output fb ab := List.take_of_length_le (by omega)
    have hna : ¬ (b.asserts = true ∧
        ¬ (env.printf_output fa aa).length < _MESA_TRACE_SCOPE_MAX_NAME_LENGTH) :=
      fun h => h.2 hla
    have hnb : ¬ (b.asserts = true ∧
        ¬ (env.printf_output fb ab).length < _MESA_TRACE_SCOPE_MAX_NAME_LENGTH) :=
      fun h => h.2 hlb
    simp only [run, runStep, _mesa_trace_scope_begin_eq, if_neg hna, if_neg hnb,
      _mesa_trace_scope_end_eq, hflag, hta, htb, Outcome.ret.injEq, Prod.mk.injEq] at hrun
    obtain ⟨-, hw⟩ := hrun
    subst hw
    rcases b with ⟨pr, g, sy, a⟩
    simp only at hp
    subst hp
    cases g <;> cases sy <;>
      simp [afterBegin, hlog, primaryBeginCalls, auxBeginCalls, endCalls, primaryEndCalls,
        replay, observe, SinkCall.sink, SinkCall.role]

/-- C1 at a concrete run: perfetto, gpuvis and sysprof compiled in, assertions
active, tracing enabled, scopes A and B nested. -/
theorem C1_nested_scopes_close_in_stack_order_witness :
    (∀ n, envEnabled.util_perfetto_is_tracing_enabled n = true) ∧
    ProperlyNested [.scope ['A'] [], .scope ['B'] [], .exit, .exit] ∧
    World.start.log = [] ∧
    ∃ flows1 w1,
      run ⟨.perfetto, true, true, true⟩ envEnabled
        [.scope ['A'] [], .scope ['B'] [], .exit, .exit] Flows.zero [] World.start =
          .ret (flows1, []) w1 ∧
      beginCount .sysprof w1.log = endCount .sysprof w1.log ∧
      replay .perfetto w1.log ([], []) =
        some ([], [Mark.opened ['A'], Mark.opened ['B'], Mark.closed ['B'], Mark.closed ['A']]) := by
  refine ⟨fun _ => rfl, by decide, rfl, ?_⟩
  obtain ⟨flows1, w1, hrun, hall, hscen⟩ :=
    C1_nested_scopes_close_in_stack_order ⟨.perfetto, true, true, true⟩ envEnabled true
      [.scope ['A'] [], .scope ['B'] [], .exit, .exit] Flows.zero World.start
      (fun _ => rfl) (by decide)
      (Or.inr (by
        intro f a hm
        simp only [List.mem_cons, List.mem_singleton, Step.scope.injEq, reduceCtorEq,
          or_false, List.not_mem_nil] at hm
        rcases hm with ⟨rfl, rfl⟩ | ⟨rfl, rfl⟩ <;> decide))
      rfl
  exact ⟨flows1, w1, hrun, (hall .sysprof).1,
    hscen ['A'] [] ['B'] [] rfl rfl rfl
      (by decide) (by decide)⟩

/-- C2: a token with `id == 0` leaves `_mesa_trace_scope_flow_begin` holding the
value the id source returned and the clock reading of that moment; a token with a
nonzero id is left unchanged; hence, the id source returning a nonzero id, any
later call on the token (whatever happened in between) leaves both the id and
the timestamp of the first call in place. -/
theorem C2_flow_token_assigned_once (b : Build) (env : Env) (name : Name)
    (flow : mesa_trace_flow) (w : World) :
    (flow.id = 0 →
      (_mesa_trace_scope_flow_begin b env name flow w).1.2 =
        { id := env.util_perfetto_next_id w.idsDrawn,
          start_time := env.os_time_get_nano w.clockReads }) ∧
    (flow.id ≠ 0 → (_mesa_trace_scope_flow_begin b env name flow w).1.2 = flow) ∧
    (flow.id = 0 → env.util_perfetto_next_id w.idsDrawn ≠ 0 →
      ∀ (name2 : Name) (w2 : World),
        (_mesa_trace_scope_flow_begin b env name2
          (_mesa_trace_scope_flow_begin b env name flow w).1.2 w2).1.2 =
        (_mesa_trace_scope_flow_begin b env name flow w).1.2) := by
  refine ⟨?_, ?_, ?_⟩
  · intro h0
    simp [_mesa_trace_scope_flow_begin_eq, assignedFlow, h0]
  · intro h0
    simp [_mesa_trace_scope_flow_begin_eq, assignedFlow, h0]
  · intro h0 hid name2 w2
    simp [_mesa_trace_scope_flow_begin_eq, assignedFlow, h0, hid]

/-- C2 at a concrete token: `{0, 0}` receives id 1 and time 1000 on its first
use and keeps them on its second use. -/
theorem C2_flow_token_assigned_once_witness :
    (({ id := 0, start_time := 0 } : mesa_trace_flow).id = 0) ∧
    envEnabled.util_perfetto_next_id World.start.idsDrawn ≠ 0 ∧
    (_mesa_trace_scope_flow_begin ⟨.perfetto, false, false, true⟩ envEnabled ['x']
      { id := 0, start_time := 0 } World.start).1.2 = { id := 1, start_time := 1000 } ∧
    (_mesa_trace_scope_flow_begin ⟨.perfetto, false, false, true⟩ envEnabled ['x']
      (_mesa_trace_scope_flow_begin ⟨.perfetto, false, false, true⟩ envEnabled ['x']
        { id := 0, start_time := 0 } World.start).1.2
      (_mesa_trace_scope_flow_begin ⟨.perfetto, false, false, true⟩ envEnabled ['x']
        { id := 0, start_time := 0 } World.start).2).1.2 =
      (_mesa_trace_scope_flow_begin ⟨.perfetto, false, false, true⟩ envEnabled ['x']
        { id := 0, start_time := 0 } World.start).1.2 :=
  ⟨rfl, by decide,
    (C2_flow_token_assigned_once ⟨.perfetto, false, false, true⟩ envEnabled ['x']
      { id := 0, start_time := 0 } World.start).1 rfl,
    (C2_flow_token_assigned_once ⟨.perfetto, false, false, true⟩ envEnabled ['x']
      { id := 0, start_time := 0 } World.start).2.2 rfl (by decide) ['x'] _⟩

/-- C3 (amended): when the flag reads false at the time of the operation, the
perfetto sink receives no call from scope begin, flow-scope begin or scope end
in any build, and set counter, timestamped begin and timestamped end call no
sink at all; in a build without gpuvis, sysprof and atrace the three scope
operations call no sink either.  In particular, in a perfetto-only build with
the flag reading false at both reads, `_MESA_TRACE_SCOPE("load_%d", 7)` followed
by the scope exit leaves the record of sink calls as it was.  The sinks that
are not gated still receive their calls while the flag reads false: a scope
begin that is not stopped by the bound assertion and every flow-scope begin
send exactly the atrace, gpuvis and sysprof begin calls of the sinks compiled
in, and every scope end sends exactly the gpuvis, atrace and sysprof end calls
of the sinks compiled in. -/
theorem C3_disabled_flag_gates_perfetto_only (b : Build) (env : Env) (w : World)
    (hoff : env.util_perfetto_is_tracing_enabled w.flagReads = false) :
    (∀ format args,
      callsTo .perfetto (_mesa_trace_scope_begin b env format args w).world.log =
        callsTo .perfetto w.log) ∧
    (∀ name flow,
      callsTo .perfetto (_mesa_trace_scope_flow_begin b env name flow w).2.log =
        callsTo .perfetto w.log) ∧
    (∀ scope,
      callsTo .perfetto (_mesa_trace_scope_end b env scope w).log = callsTo .perfetto w.log) ∧
    (∀ name value, (_MESA_TRACE_SET_COUNTER b env name value w).log = w.log) ∧
    (∀ name track_id flow_id clock timestamp,
      (_MESA_TRACE_TIMESTAMP_BEGIN b env name track_id flow_id clock timestamp w).log = w.log) ∧
    (∀ name track_id clock timestamp,
      (_MESA_TRACE_TIMESTAMP_END b env name track_id clock timestamp w).log = w.log) ∧
    (b.gpuvis = false → b.sysprof = false → b.primary ≠ .atrace →
      (∀ format args, (_mesa_trace_scope_begin b env format args w).world.log = w.log) ∧
      (∀ name flow, (_mesa_trace_scope_flow_begin b env name flow w).2.log = w.log) ∧
      (∀ scope, (_mesa_trace_scope_end b env scope w).log = w.log)) ∧
    (b.gpuvis = false → b.sysprof = false → b.primary = .perfetto →
      env.util_perfetto_is_tracing_enabled (w.flagReads + 1) = false →
      ∀ flows, (run b env [.scope ['l', 'o', 'a', 'd', '_', '%', 'd'] [.int 7], .exit]
        flows [] w).world.log = w.log) ∧
    (∀ format args,
      ¬ (b.asserts = true ∧
        ¬ (env.printf_output format args).length < _MESA_TRACE_SCOPE_MAX_NAME_LENGTH) →
      ∃ h w1, _mesa_trace_scope_begin b env format args w = .ret h w1 ∧
        w1.log = w.log ++
          (if b.primary = .atrace then
            [SinkCall.atrace_begin
              ((env.printf_output format args).take (_MESA_TRACE_SCOPE_MAX_NAME_LENGTH - 1))]
           else []) ++
          (if b.gpuvis = true then
            [SinkCall.util_gpuvis_begin
              ((env.printf_output format args).take (_MESA_TRACE_SCOPE_MAX_NAME_LENGTH - 1))]
           else []) ++
          (if b.sysprof = true then
            [SinkCall.util_sysprof_begin
              ((env.printf_output format args).take (_MESA_TRACE_SCOPE_MAX_NAME_LENGTH - 1)) h]
           else [])) ∧
    (∀ name flow,
      (_mesa_trace_scope_flow_begin b env name flow w).2.log =
        w.log ++
          (if b.primary = .atrace then [SinkCall.atrace_begin name] else []) ++
          (if b.gpuvis = true then [SinkCall.util_gpuvis_begin name] else []) ++
          (if b.sysprof = true then
            [SinkCall.util_sysprof_begin name
              (_mesa_trace_scope_flow_begin b env name flow w).1.1]
           else [])) ∧
    (∀ scope,
      (_mesa_trace_scope_end b env scope w).log =
        w.log ++
          (if b.gpuvis = true then [SinkCall.util_gpuvis_end] else []) ++
          (if b.primary = .atrace then [SinkCall.atrace_end] else []) ++
          (if b.sysprof = true then [SinkCall.util_sysprof_end scope] else [])) := by
  refine ⟨?_, ?_, ?_, ?_, ?_, ?_, ?_, ?_, ?_, ?_, ?_⟩
  · intro format args
    rcases scope_begin_world_log b env format args w with h | h
    · rw [h]
    · rw [h, hoff, callsTo_append, callsTo_perfetto_begin_off, List.append_nil]
  · intro name flow
    simp only [_mesa_trace_scope_flow_begin_eq, afterBegin, afterAssign_log, hoff]
    rw [callsTo_append, callsTo_perfetto_flow_begin_off, List.append_nil]
  · intro scope
    simp only [_mesa_trace_scope_end_eq, hoff]
    rw [callsTo_append, callsTo_perfetto_end_off, List.append_nil]
  · intro name value
    rcases b with ⟨pr, g, sy, a⟩
    cases pr <;> simp [_MESA_TRACE_SET_COUNTER, util_perfetto_is_tracing_enabled, hoff]
  · intro name track_id flow_id clock timestamp
    rcases b with ⟨pr, g, sy, a⟩
    cases pr <;> simp [_MESA_TRACE_TIMESTAMP_BEGIN, util_perfetto_is_tracing_enabled, hoff]
  · intro name track_id clock timestamp
    rcases b with ⟨pr, g, sy, a⟩
    cases pr <;> simp [_MESA_TRACE_TIMESTAMP_END, util_perfetto_is_tracing_enabled, hoff]
  · intro hg hs hp
    rcases b with ⟨pr, g, sy, a⟩
    simp only at hg hs hp
    subst hg hs
    refine ⟨?_, ?_, ?_⟩
    · intro format args
      rcases scope_begin_world_log _ env format args w with h | h
      · rw [h]
      · rw [h, hoff]
        cases pr <;> simp_all [primaryBeginCalls, auxBeginCalls]
    · intro name flow
      simp only [_mesa_trace_scope_flow_begin_eq, afterBegin, afterAssign_log, hoff]
      cases pr <;> simp_all [primaryFlowBeginCalls, auxBeginCalls]
    · intro scope
      simp only [_mesa_trace_scope_end_eq, hoff]
      cases pr <;> simp_all [endCalls, primaryEndCalls]
  · intro hg hs hp hoff1 flows
    rcases b with ⟨pr, g, sy, a⟩
    simp only at hg hs hp
    subst hg hs hp
    by_cases hc : a = true ∧
        ¬ (env.printf_output ['l', 'o', 'a', 'd', '_', '%', 'd'] [.int 7]).length <
          _MESA_TRACE_SCOPE_MAX_NAME_LENGTH
    · simp only [run, runStep, _mesa_trace_scope_begin_eq, if_pos hc, Outcome.world]
    · simp only [run, runStep, _mesa_trace_scope_begin_eq, if_neg hc, Outcome.world,
        _mesa_trace_scope_end_eq]
      simp [afterBegin, flagReadsPerCall, hoff, hoff1, primaryBeginCalls, auxBeginCalls,
        endCalls, primaryEndCalls]
  · intro format args hc
    obtain ⟨h, w1, hret, hlog⟩ := scope_begin_returns_log b env format args w hc
    refine ⟨h, w1, hret, ?_⟩
    rw [hlog, hoff]
    rcases b with ⟨pr, g, sy, a⟩
    cases pr <;> simp
  · intro name flow
    simp only [_mesa_trace_scope_flow_begin_eq, afterBegin, afterAssign_log, hoff]
    rcases b with ⟨pr, g, sy, a⟩
    cases pr <;> cases g <;> cases sy <;>
      simp [primaryFlowBeginCalls, auxBeginCalls, scopeHandle]
  · intro scope
    simp only [_mesa_trace_scope_end_eq, hoff]
    rcases b with ⟨pr, g, sy, a⟩
    cases pr <;> cases g <;> cases sy <;> simp [endCalls, primaryEndCalls]

/-- C3 fails as stated: with gpuvis compiled in and the flag reading false at
every read, `_MESA_TRACE_SCOPE("load_%d", 7)` followed by the scope exit sends a
begin and an end to gpuvis. -/
theorem C3_counterexample_gpuvis_called_while_disabled :
    envDisabled.util_perfetto_is_tracing_enabled 0 = false ∧
    envDisabled.util_perfetto_is_tracing_enabled 1 = false ∧
    (run ⟨.perfetto, true, false, true⟩ envDisabled
      [.scope ['l', 'o', 'a', 'd', '_', '%', 'd'] [.int 7], .exit]
      Flows.zero [] World.start).world.log =
      [SinkCall.util_gpuvis_begin ['l', 'o', 'a', 'd', '_', '7'], SinkCall.util_gpuvis_end] := by
  decide

/-- C3 (amended) at concrete runs with the flag reading false: a perfetto-only
build records no sink call for `_MESA_TRACE_SCOPE("load_%d", 7)` and its exit; a
build with perfetto, gpuvis and sysprof sends the gpuvis and sysprof end calls
and no perfetto call at the exit. -/
theorem C3_disabled_flag_gates_perfetto_only_witness :
    envDisabled.util_perfetto_is_tracing_enabled World.start.flagReads = false ∧
    (run ⟨.perfetto, false, false, true⟩ envDisabled
      [.scope ['l', 'o', 'a', 'd', '_', '%', 'd'] [.int 7], .exit]
      Flows.zero [] World.start).world.log = [] ∧
    (_mesa_trace_scope_end ⟨.perfetto, true, true, true⟩ envDisabled 500 World.start).log =
      World.start.log ++
        (if (⟨.perfetto, true, true, true⟩ : Build).gpuvis = true then
          [SinkCall.util_gpuvis_end] else []) ++
        (if (⟨.perfetto, true, true, true⟩ : Build).primary = .atrace then
          [SinkCall.atrace_end] else []) ++
        (if (⟨.perfetto, true, true, true⟩ : Build).sysprof = true then
          [SinkCall.util_sysprof_end 500] else []) :=
  ⟨rfl,
    (C3_disabled_flag_gates_perfetto_only ⟨.perfetto, false, false, true⟩ envDisabled
      World.start rfl).2.2.2.2.2.2.2.1 rfl rfl rfl rfl Flows.zero,
    (C3_disabled_flag_gates_perfetto_only ⟨.perfetto, true, true, true⟩ envDisabled
      World.start rfl).2.2.2.2.2.2.2.2.2.2 500⟩

/-- C4 fails as stated: with assertions active and the flag reading false, a call
whose formatted name has 4096 characters stops at the failed bound assertion;
the name has been formatted (one `vsnprintf` call) and the flag has not been
read. -/
theorem C4_counterexample_assert_fails_while_disabled :
    envDisabled.util_perfetto_is_tracing_enabled World.start.flagReads = false ∧
    _mesa_trace_scope_begin ⟨.perfetto, false, false, true⟩ envDisabled ['%', 's'] longArg
      World.start =
      .assertFailed { flagReads := 0, idsDrawn := 0, clockReads := 0, sysprofBegins := 0,
                      formatCalls := 1, log := [] } := by
  refine ⟨rfl, ?_⟩
  have hout : envDisabled.printf_output ['%', 's'] longArg = List.replicate 4096 'x' :=
    render_percent_s _
  rw [_mesa_trace_scope_begin_eq, hout, List.length_replicate, if_pos ⟨rfl, by decide⟩]
  rfl

/-- C4 (amended): `_mesa_trace_scope_begin` formats the name and checks the bound
before it consults the flag, whatever the flag reads.  Every call performs
exactly one `vsnprintf`; the call stops at the bound assertion exactly when
assertions are active and the formatted length is not below 4096, and it stops
there without having read the flag or called a sink; a call that returns has
read the flag once in a perfetto build and never otherwise.  The flag gates
only the call to the perfetto sink: a call that is not stopped by the assertion
returns and sends `util_perfetto_trace_begin` exactly when perfetto is compiled
in and the flag reads true, and it sends the atrace, gpuvis and sysprof begin
calls of the sinks compiled in whatever the flag reads. -/
theorem C4_format_and_check_precede_flag (b : Build) (env : Env) (format : Name)
    (args : List Arg) (w : World) :
    (_mesa_trace_scope_begin b env format args w).world.formatCalls = w.formatCalls + 1 ∧
    ((_mesa_trace_scope_begin b env format args w).failed = true ↔
      (b.asserts = true ∧
        ¬ (env.printf_output format args).length < _MESA_TRACE_SCOPE_MAX_NAME_LENGTH)) ∧
    ((_mesa_trace_scope_begin b env format args w).failed = true →
      (_mesa_trace_scope_begin b env format args w).world.flagReads = w.flagReads ∧
      (_mesa_trace_scope_begin b env format args w).world.log = w.log) ∧
    ((_mesa_trace_scope_begin b env format args w).failed = false →
      (_mesa_trace_scope_begin b env format args w).world.flagReads =
        w.flagReads + (if b.primary = .perfetto then 1 else 0)) ∧
    (¬ (b.asserts = true ∧
        ¬ (env.printf_output format args).length < _MESA_TRACE_SCOPE_MAX_NAME_LENGTH) →
      ∃ h w1, _mesa_trace_scope_begin b env format args w = .ret h w1 ∧
        w1.log = w.log ++
          (match b.primary with
            | .perfetto =>
              if env.util_perfetto_is_tracing_enabled w.flagReads = true then
                [SinkCall.util_perfetto_trace_begin
                  ((env.printf_output format args).take (_MESA_TRACE_SCOPE_MAX_NAME_LENGTH - 1))]
              else []
            | .atrace =>
              [SinkCall.atrace_begin
                ((env.printf_output format args).take (_MESA_TRACE_SCOPE_MAX_NAME_LENGTH - 1))]
            | .none => []) ++
          (if b.gpuvis = true then
            [SinkCall.util_gpuvis_begin
              ((env.printf_output format args).take (_MESA_TRACE_SCOPE_MAX_NAME_LENGTH - 1))]
           else []) ++
          (if b.sysprof = true then
            [SinkCall.util_sysprof_begin
              ((env.printf_output format args).take (_MESA_TRACE_SCOPE_MAX_NAME_LENGTH - 1)) h]
           else [])) := by
  have hfour :
      (_mesa_trace_scope_begin b env format args w).world.formatCalls = w.formatCalls + 1 ∧
      ((_mesa_trace_scope_begin b env format args w).failed = true ↔
        (b.asserts = true ∧
          ¬ (env.printf_output format args).length < _MESA_TRACE_SCOPE_MAX_NAME_LENGTH)) ∧
      ((_mesa_trace_scope_begin b env format args w).failed = true →
        (_mesa_trace_scope_begin b env format args w).world.flagReads = w.flagReads ∧
        (_mesa_trace_scope_begin b env format args w).world.log = w.log) ∧
      ((_mesa_trace_scope_begin b env format args w).failed = false →
        (_mesa_trace_scope_begin b env format args w).world.flagReads =
          w.flagReads + (if b.primary = .perfetto then 1 else 0)) := by
    rw [_mesa_trace_scope_begin_eq]
    by_cases hc : b.asserts = true ∧
        ¬ (env.printf_output format args).length < _MESA_TRACE_SCOPE_MAX_NAME_LENGTH
    · simp only [if_pos hc, Outcome.world, Outcome.failed]
      simp [hc]
    · simp only [if_neg hc, Outcome.world, Outcome.failed, afterBegin]
      rcases b with ⟨pr, g, sy, a⟩
      cases pr <;> simp_all [flagReadsPerCall]
  exact ⟨hfour.1, hfour.2.1, hfour.2.2.1, hfour.2.2.2,
    fun hc => scope_begin_returns_log b env format args w hc⟩

/-- C4 (amended) at a concrete call: with the flag reading false, gpuvis compiled
in and assertions active, the call `_mesa_trace_scope_begin("load_%d", 7)`
returns, has formatted the name once, has read the flag once, and has sent the
gpuvis begin for `load_7` and no perfetto begin. -/
theorem C4_format_and_check_precede_flag_witness :
    (_mesa_trace_scope_begin ⟨.perfetto, true, false, true⟩ envDisabled
      ['l', 'o', 'a', 'd', '_', '%', 'd'] [.int 7] World.start).failed = false ∧
    (_mesa_trace_scope_begin ⟨.perfetto, true, false, true⟩ envDisabled
      ['l', 'o', 'a', 'd', '_', '%', 'd'] [.int 7] World.start).world.formatCalls =
        World.start.formatCalls + 1 ∧
    (_mesa_trace_scope_begin ⟨.perfetto, true, false, true⟩ envDisabled
      ['l', 'o', 'a', 'd', '_', '%', 'd'] [.int 7] World.start).world.flagReads =
        World.start.flagReads +
          (if (⟨.perfetto, true, false, true⟩ : Build).primary = .perfetto then 1 else 0) ∧
    ∃ h w1, _mesa_trace_scope_begin ⟨.perfetto, true, false, true⟩ envDisabled
        ['l', 'o', 'a', 'd', '_', '%', 'd'] [.int 7] World.start = .ret h w1 ∧
      w1.log = [SinkCall.util_gpuvis_begin ['l', 'o', 'a', 'd', '_', '7']] := by
  have hfit : ¬ ((⟨.perfetto, true, false, true⟩ : Build).asserts = true ∧
      ¬ (envDisabled.printf_output ['l', 'o', 'a', 'd', '_', '%', 'd'] [.int 7]).length <
        _MESA_TRACE_SCOPE_MAX_NAME_LENGTH) := by decide
  have h := C4_format_and_check_precede_flag ⟨.perfetto, true, false, true⟩ envDisabled
    ['l', 'o', 'a', 'd', '_', '%', 'd'] [.int 7] World.start
  obtain ⟨hd, w1, hret, hlog⟩ := h.2.2.2.2 hfit
  refine ⟨by decide, h.1, h.2.2.2.1 (by decide), hd, w1, hret, ?_⟩
  rw [hlog]
  rfl

/-- C5 fails as stated: with assertions compiled out, a formatted name of 4096
characters raises no error and gpuvis receives its first 4095 characters. -/
theorem C5_counterexample_truncated_without_error :
    (envEnabled.printf_output ['%', 's'] longArg).length = 4096 ∧
    _mesa_trace_scope_begin ⟨.none, true, false, false⟩ envEnabled ['%', 's'] longArg
      World.start =
      .ret NULL { flagReads := 0, idsDrawn := 0, clockReads := 0, sysprofBegins := 0,
                  formatCalls := 1,
                  log := [SinkCall.util_gpuvis_begin (List.replicate 4095 'x')] } := by
  have hout : envEnabled.printf_output ['%', 's'] longArg = List.replicate 4096 'x' :=
    render_percent_s _
  refine ⟨by rw [hout, List.length_replicate], ?_⟩
  have htake : (List.replicate 4096 'x').take (_MESA_TRACE_SCOPE_MAX_NAME_LENGTH - 1) =
      List.replicate 4095 'x' := by
    rw [List.take_replicate]; rfl
  rw [_mesa_trace_scope_begin_eq, hout, if_neg (fun h => Bool.noConfusion h.1), htake]
  rfl

/-- C5 (amended): in a build with assertions active, `_mesa_trace_scope_begin`
stops at the bound assertion, before any sink is called, if and only if the
formatted name's length is not below 4096.  In every build, when the length is
below 4096 the call returns and every sink call it makes carries the complete
formatted name.  In a build with assertions compiled out the call always
returns and every sink call carries the first 4095 characters of the formatted
name. -/
theorem C5_bound_checked_when_asserts_active (b : Build) (env : Env) (format : Name)
    (args : List Arg) (w : World) :
    (b.asserts = true →
      ((∃ w1, _mesa_trace_scope_begin b env format args w = .assertFailed w1 ∧ w1.log = w.log) ↔
        ¬ (env.printf_output format args).length < _MESA_TRACE_SCOPE_MAX_NAME_LENGTH)) ∧
    ((env.printf_output format args).length < _MESA_TRACE_SCOPE_MAX_NAME_LENGTH →
      ∃ h w1 calls, _mesa_trace_scope_begin b env format args w = .ret h w1 ∧
        w1.log = w.log ++ calls ∧
        ∀ c ∈ calls, c.name? = some (env.printf_output format args)) ∧
    (b.asserts = false →
      ∃ h w1 calls, _mesa_trace_scope_begin b env format args w = .ret h w1 ∧
        w1.log = w.log ++ calls ∧
        ∀ c ∈ calls, c.name? = some ((env.printf_output format args).take 4095)) := by
  have hnames : ∀ (en : Bool) (name : Name) (p : Nat),
      ∀ c ∈ primaryBeginCalls b en name ++ auxBeginCalls b name p, c.name? = some name := by
    intro en name p c hcm
    rcases b with ⟨pr, g, sy, a⟩
    cases pr <;> cases g <;> cases sy <;> cases en <;>
      simp [primaryBeginCalls, auxBeginCalls] at hcm <;>
      (try rcases hcm with h | h) <;> (try rcases h with h | h) <;>
      simp_all [SinkCall.name?]
  refine ⟨?_, ?_, ?_⟩
  · intro ha
    rw [_mesa_trace_scope_begin_eq]
    constructor
    · rintro ⟨w1, h1, -⟩ hlt
      rw [if_neg (fun h => h.2 hlt)] at h1
      simp at h1
    · intro hlen
      rw [if_pos ⟨ha, hlen⟩]
      exact ⟨_, rfl, rfl⟩
  · intro hlen
    rw [_mesa_trace_scope_begin_eq, if_neg (fun h => h.2 hlen)]
    have ht : (env.printf_output format args).take (_MESA_TRACE_SCOPE_MAX_NAME_LENGTH - 1) =
        env.printf_output format args := List.take_of_length_le (by omega)
    rw [ht]
    exact ⟨_, _, _, rfl, rfl, hnames _ _ _⟩
  · intro ha
    rw [_mesa_trace_scope_begin_eq, if_neg (by simp [ha])]
    exact ⟨_, _, _, rfl, rfl, hnames _ _ _⟩

/-- C5 (amended) at concrete calls: assertions active, perfetto and gpuvis
compiled in, tracing enabled: `"load_%d", 7` reaches both sinks as `load_7`. -/
theorem C5_bound_checked_when_asserts_active_witness :
    (⟨.perfetto, true, false, true⟩ : Build).asserts = true ∧
    (envEnabled.printf_output ['l', 'o', 'a', 'd', '_', '%', 'd'] [.int 7]).length <
      _MESA_TRACE_SCOPE_MAX_NAME_LENGTH ∧
    ∃ h w1 calls,
      _mesa_trace_scope_begin ⟨.perfetto, true, false, true⟩ envEnabled
        ['l', 'o', 'a', 'd', '_', '%', 'd'] [.int 7] World.start = .ret h w1 ∧
      w1.log = World.start.log ++ calls ∧
      ∀ c ∈ calls, c.name? =
        some (envEnabled.printf_output ['l', 'o', 'a', 'd', '_', '%', 'd'] [.int 7]) :=
  ⟨rfl, by decide,
    (C5_bound_checked_when_asserts_active ⟨.perfetto, true, false, true⟩ envEnabled
      ['l', 'o', 'a', 'd', '_', '%', 'd'] [.int 7] World.start).2.1 (by decide)⟩

/-- C7 fails as stated: in a perfetto build, a scope begun while the flag read
false and left after the flag has turned true sends `util_perfetto_trace_end`
although no begin was sent; perfetto observes an end without a begin. -/
theorem C7_counterexample_end_without_begin :
    envEnabledLater.util_perfetto_is_tracing_enabled World.start.flagReads = false ∧
    _mesa_trace_scope_begin ⟨.perfetto, false, false, true⟩ envEnabledLater ['A'] []
      World.start =
      .ret NULL { flagReads := 1, idsDrawn := 0, clockReads := 0, sysprofBegins := 0,
                  formatCalls := 1, log := [] } ∧
    (_mesa_trace_scope_end ⟨.perfetto, false, false, true⟩ envEnabledLater NULL
      { flagReads := 1, idsDrawn := 0, clockReads := 0, sysprofBegins := 0,
        formatCalls := 1, log := [] }).log = [SinkCall.util_perfetto_trace_end] ∧
    (run ⟨.perfetto, false, false, true⟩ envEnabledLater [.scope ['A'] [], .exit]
      Flows.zero [] World.start).world.log = [SinkCall.util_perfetto_trace_end] ∧
    replay .perfetto [SinkCall.util_perfetto_trace_end] ([], []) = none := by
  decide

/-- C7 (amended): for every handle, whatever the flag read when the span was
begun, `_mesa_trace_scope_end` sends no call to perfetto when the flag reads
false at the moment the scope exits, and in a perfetto build it sends exactly
`util_perfetto_trace_end` when the flag reads true at that moment. -/
theorem C7_end_gated_by_flag_at_exit (b : Build) (env : Env) (scope : Nat) (w : World) :
    (env.util_perfetto_is_tracing_enabled w.flagReads = false →
      callsTo .perfetto (_mesa_trace_scope_end b env scope w).log = callsTo .perfetto w.log) ∧
    (b.primary = .perfetto → env.util_perfetto_is_tracing_enabled w.flagReads = true →
      callsTo .perfetto (_mesa_trace_scope_end b env scope w).log =
        callsTo .perfetto w.log ++ [SinkCall.util_perfetto_trace_end]) := by
  refine ⟨?_, ?_⟩
  · intro hoff
    simp only [_mesa_trace_scope_end_eq, hoff]
    rw [callsTo_append, callsTo_perfetto_end_off, List.append_nil]
  · intro hp hon
    simp only [_mesa_trace_scope_end_eq, hon]
    rw [callsTo_append]
    rcases b with ⟨pr, g, sy, a⟩
    simp only at hp
    subst hp
    cases g <;> cases sy <;> simp [callsTo, endCalls, primaryEndCalls, SinkCall.sink]

/-- C7 (amended) at concrete exits: a scope left with the flag reading false
sends nothing to perfetto; left with the flag reading true it sends the call
`util_perfetto_trace_end`. -/
theorem C7_end_gated_by_flag_at_exit_witness :
    envDisabled.util_perfetto_is_tracing_enabled World.start.flagReads = false ∧
    callsTo .perfetto
      (_mesa_trace_scope_end ⟨.perfetto, true, true, true⟩ envDisabled 500 World.start).log =
      callsTo .perfetto World.start.log ∧
    envEnabled.util_perfetto_is_tracing_enabled World.start.flagReads = true ∧
    callsTo .perfetto
      (_mesa_trace_scope_end ⟨.perfetto, true, true, true⟩ envEnabled 500 World.start).log =
      callsTo .perfetto World.start.log ++ [SinkCall.util_perfetto_trace_end] :=
  ⟨rfl,
    (C7_end_gated_by_flag_at_exit ⟨.perfetto, true, true, true⟩ envDisabled 500
      World.start).1 rfl,
    rfl,
    (C7_end_gated_by_flag_at_exit ⟨.perfetto, true, true, true⟩ envEnabled 500
      World.start).2 rfl rfl⟩

/-- C8: run any sequential series of `_mesa_trace_scope_flow_begin` calls on
tokens that all start as `{0, 0}`, with an id source whose answers are strictly
increasing and nonzero.  At any point of the run (after the calls `done`), two
distinct tokens that have each been used hold different ids; and whatever calls
follow (`later`), no other token ever holds the id that was handed to a token
used in `done`. -/
theorem C8_flow_ids_not_shared (b : Build) (env : Env) (done later : List (Name × Nat))
    (w : World)
    (hmono : StrictMono env.util_perfetto_next_id)
    (hnz : ∀ n, env.util_perfetto_next_id n ≠ 0) :
    (∀ a c, a ≠ c → a ∈ done.map Prod.snd → c ∈ done.map Prod.snd →
      ((flow_begin_series b env done Flows.zero w).1 a).id ≠
        ((flow_begin_series b env done Flows.zero w).1 c).id) ∧
    (∀ a c, a ≠ c → a ∈ done.map Prod.snd →
      ((flow_begin_series b env (done ++ later) Flows.zero w).1 c).id ≠
        ((flow_begin_series b env done Flows.zero w).1 a).id) := by
  have hinit : FlowInv env Flows.zero w.idsDrawn :=
    ⟨fun _ => Or.inl rfl, fun _ _ _ h => absurd rfl h⟩
  have hmid := flow_begin_series_inv b env hmono hnz done Flows.zero w hinit
  refine ⟨?_, ?_⟩
  · intro a c hac ha _
    exact hmid.2 a c hac (flow_begin_series_used b env hnz done Flows.zero w a ha)
  · intro a c hac ha
    have hused := flow_begin_series_used b env hnz done Flows.zero w a ha
    have hfin := flow_begin_series_inv b env hmono hnz later _ _ hmid
    rw [flow_begin_series_append]
    have hkeep := flow_begin_series_keeps b env later
      (flow_begin_series b env done Flows.zero w).1
      (flow_begin_series b env done Flows.zero w).2 a hused
    intro heq
    refine hfin.2 a c hac (by rw [hkeep]; exact hused) ?_
    rw [hkeep]
    exact heq.symm

/-- C8 at a concrete run: tokens at addresses 10 and 20 used in turn, then token
10 used again. -/
theorem C8_flow_ids_not_shared_witness :
    StrictMono envEnabled.util_perfetto_next_id ∧
    (∀ n, envEnabled.util_perfetto_next_id n ≠ 0) ∧
    ((flow_begin_series ⟨.perfetto, false, false, true⟩ envEnabled
        [(['a'], 10), (['b'], 20)] Flows.zero World.start).1 10).id ≠
      ((flow_begin_series ⟨.perfetto, false, false, true⟩ envEnabled
        [(['a'], 10), (['b'], 20)] Flows.zero World.start).1 20).id ∧
    ((flow_begin_series ⟨.perfetto, false, false, true⟩ envEnabled
        ([(['a'], 10), (['b'], 20)] ++ [(['c'], 10), (['d'], 30)]) Flows.zero
        World.start).1 30).id ≠
      ((flow_begin_series ⟨.perfetto, false, false, true⟩ envEnabled
        [(['a'], 10), (['b'], 20)] Flows.zero World.start).1 10).id := by
  have hmono : StrictMono envEnabled.util_perfetto_next_id := by
    intro x y hxy
    simp only [envEnabled]
    omega
  have hnz : ∀ n, envEnabled.util_perfetto_next_id n ≠ 0 := by
    intro n
    simp [envEnabled]
  have h := C8_flow_ids_not_shared ⟨.perfetto, false, false, true⟩ envEnabled
    [(['a'], 10), (['b'], 20)] [(['c'], 10), (['d'], 30)] World.start hmono hnz
  exact ⟨hmono, hnz, h.1 10 20 (by decide) (by decide) (by decide),
    h.2 10 30 (by decide) (by decide)⟩

/-- C9 fails as stated: in a build with no sink compiled in,
`_mesa_trace_scope_flow_begin` still assigns an id and a start time to a token
whose id is 0, and with assertions active `_mesa_trace_scope_begin` still stops
at the bound assertion for a name of 4096 characters. -/
theorem C9_counterexample_token_assigned_without_sinks :
    (_mesa_trace_scope_flow_begin ⟨.none, false, false, true⟩ envEnabled ['x']
      { id := 0, start_time := 0 } World.start).1.2 = { id := 1, start_time := 1000 } ∧
    (_mesa_trace_scope_begin ⟨.none, false, false, true⟩ envEnabled ['%', 's'] longArg
      World.start).failed = true := by
  refine ⟨by decide, ?_⟩
  have hout : envEnabled.printf_output ['%', 's'] longArg = List.replicate 4096 'x' :=
    render_percent_s _
  rw [_mesa_trace_scope_begin_eq, hout, List.length_replicate, if_pos ⟨rfl, by decide⟩]
  rfl

/-- C9 (amended): in a build with no sink compiled in, no operation calls a
sink or reads the flag.  Scope end, set counter, timestamped begin and
timestamped end leave the world as it was.  Scope begin still formats the name
and, with assertions active, checks the bound: it stops exactly when assertions
are active and the formatted length is not below 4096, and returns `NULL`
otherwise.  Flow-scope begin returns `NULL` and still performs the first-use
assignment: a token whose id is 0 receives the next id and the clock reading, a
token with a nonzero id is unchanged and neither the id source nor the clock is
consulted. -/
theorem C9_no_sinks_build (asserts : Bool) (env : Env) (w : World) :
    (∀ scope, _mesa_trace_scope_end ⟨.none, false, false, asserts⟩ env scope w = w) ∧
    (∀ name value, _MESA_TRACE_SET_COUNTER ⟨.none, false, false, asserts⟩ env name value w = w) ∧
    (∀ name track_id flow_id clock timestamp,
      _MESA_TRACE_TIMESTAMP_BEGIN ⟨.none, false, false, asserts⟩ env name track_id flow_id clock
        timestamp w = w) ∧
    (∀ name track_id clock timestamp,
      _MESA_TRACE_TIMESTAMP_END ⟨.none, false, false, asserts⟩ env name track_id clock
        timestamp w = w) ∧
    (∀ format args,
      _mesa_trace_scope_begin ⟨.none, false, false, asserts⟩ env format args w =
        if asserts = true ∧
            ¬ (env.printf_output format args).length < _MESA_TRACE_SCOPE_MAX_NAME_LENGTH then
          .assertFailed { w with formatCalls := w.formatCalls + 1 }
        else .ret NULL { w with formatCalls := w.formatCalls + 1 }) ∧
    (∀ name flow, flow.id = 0 →
      _mesa_trace_scope_flow_begin ⟨.none, false, false, asserts⟩ env name flow w =
        ((NULL, { id := env.util_perfetto_next_id w.idsDrawn,
                  start_time := env.os_time_get_nano w.clockReads }),
          { w with idsDrawn := w.idsDrawn + 1, clockReads := w.clockReads + 1 })) ∧
    (∀ name flow, flow.id ≠ 0 →
      _mesa_trace_scope_flow_begin ⟨.none, false, false, asserts⟩ env name flow w =
        ((NULL, flow), w)) := by
  refine ⟨?_, ?_, ?_, ?_, ?_, ?_, ?_⟩
  · intro scope
    simp [_mesa_trace_scope_end_eq, endCalls, primaryEndCalls, flagReadsPerCall]
  · intro name value
    rfl
  · intro name track_id flow_id clock timestamp
    rfl
  · intro name track_id clock timestamp
    rfl
  · intro format args
    rw [_mesa_trace_scope_begin_eq]
    simp [afterBegin, primaryBeginCalls, auxBeginCalls, flagReadsPerCall, scopeHandle]
  · intro name flow h0
    simp [_mesa_trace_scope_flow_begin_eq, afterBegin, afterAssign, assignedFlow,
      primaryFlowBeginCalls, auxBeginCalls, flagReadsPerCall, scopeHandle, h0]
  · intro name flow h0
    simp [_mesa_trace_scope_flow_begin_eq, afterBegin, afterAssign, assignedFlow,
      primaryFlowBeginCalls, auxBeginCalls, flagReadsPerCall, scopeHandle, h0]

/-- C9 (amended) at concrete tokens: a fresh token is assigned, a used token is
left alone. -/
theorem C9_no_sinks_build_witness :
    (({ id := 0, start_time := 0 } : mesa_trace_flow).id = 0) ∧
    _mesa_trace_scope_flow_begin ⟨.none, false, false, true⟩ envEnabled ['x']
      { id := 0, start_time := 0 } World.start =
      ((NULL, { id := envEnabled.util_perfetto_next_id World.start.idsDrawn,
                start_time := envEnabled.os_time_get_nano World.start.clockReads }),
        { World.start with idsDrawn := World.start.idsDrawn + 1,
                           clockReads := World.start.clockReads + 1 }) ∧
    (({ id := 7, start_time := 3 } : mesa_trace_flow).id ≠ 0) ∧
    _mesa_trace_scope_flow_begin ⟨.none, false, false, true⟩ envEnabled ['x']
      { id := 7, start_time := 3 } World.start = ((NULL, { id := 7, start_time := 3 }), World.start) :=
  ⟨rfl, (C9_no_sinks_build true envEnabled World.start).2.2.2.2.2.1 ['x'] _ rfl,
    by decide, (C9_no_sinks_build true envEnabled World.start).2.2.2.2.2.2 ['x'] _ (by decide)⟩

/-- C10: with the flag reading true, `_mesa_trace_scope_flow_begin` makes these
calls, in this order and no others: on perfetto a flow span with the given name
and the token's id as it stands after the first-use assignment (the id just
drawn from the id source when the token's id was 0, the stored id otherwise);
on gpuvis, when compiled in, an ordinary span with the same name; on sysprof,
when compiled in, an ordinary span with the same name.  The returned handle is
the scope pointer sysprof answered, and `NULL` when sysprof is not compiled
in. -/
theorem C10_flow_begin_calls (b : Build) (env : Env) (name : Name) (flow : mesa_trace_flow)
    (w : World) (hp : b.primary = .perfetto)
    (hen : env.util_perfetto_is_tracing_enabled w.flagReads = true) :
    (_mesa_trace_scope_flow_begin b env name flow w).2.log =
      w.log ++
        [SinkCall.util_perfetto_trace_begin_flow name
          (_mesa_trace_scope_flow_begin b env name flow w).1.2.id] ++
        (if b.gpuvis = true then [SinkCall.util_gpuvis_begin name] else []) ++
        (if b.sysprof = true then
          [SinkCall.util_sysprof_begin name (_mesa_trace_scope_flow_begin b env name flow w).1.1]
         else []) ∧
    (_mesa_trace_scope_flow_begin b env name flow w).1.2.id =
      (if flow.id = 0 then env.util_perfetto_next_id w.idsDrawn else flow.id) ∧
    (_mesa_trace_scope_flow_begin b env name flow w).1.1 =
      (if b.sysprof = true then env.util_sysprof_begin w.sysprofBegins else NULL) := by
  rcases b with ⟨pr, g, sy, a⟩
  simp only at hp
  subst hp
  refine ⟨?_, ?_, ?_⟩
  · simp [_mesa_trace_scope_flow_begin_eq, afterBegin, afterAssign_log, primaryFlowBeginCalls,
      auxBeginCalls, hen, scopeHandle]
  · simp only [_mesa_trace_scope_flow_begin_eq, assignedFlow]
    split <;> rfl
  · simp [_mesa_trace_scope_flow_begin_eq, scopeHandle]

/-- C10 at a concrete call: all three sinks compiled in, fresh token. -/
theorem C10_flow_begin_calls_witness :
    envEnabled.util_perfetto_is_tracing_enabled World.start.flagReads = true ∧
    (_mesa_trace_scope_flow_begin ⟨.perfetto, true, true, true⟩ envEnabled ['x']
      { id := 0, start_time := 0 } World.start).2.log =
      [SinkCall.util_perfetto_trace_begin_flow ['x'] 1, SinkCall.util_gpuvis_begin ['x'],
        SinkCall.util_sysprof_begin ['x'] 500] ∧
    (_mesa_trace_scope_flow_begin ⟨.perfetto, true, true, true⟩ envEnabled ['x']
      { id := 0, start_time := 0 } World.start).1.1 = 500 := by
  have h := C10_flow_begin_calls ⟨.perfetto, true, true, true⟩ envEnabled ['x']
    { id := 0, start_time := 0 } World.start rfl rfl
  refine ⟨rfl, ?_, ?_⟩
  · rw [h.1]; decide
  · rw [h.2.2]; decide

end CpuTrace
